import Mathlib

/-
Verification of the caching/aggregation layer of the Intenational_Calls
repository (src/main_gui.py, src/summarizer.py, src/utils.py).

The Python code is shallowly embedded: the on-disk CSV cache becomes a
`Store` (a map from file names to optional lists of row-parse outcomes),
dates become a `Date` structure with a rata-die day count, and each
engine function (`cached_scrape`, `scrape_eu_calls`, `load_portal_calls`,
`load_all_calls`, the cache load/save helpers and the SDG classifier) is
translated line by line into a pure Lean function.  Site scrapers, the
page fetcher and the text summarizer are external collaborators (Selenium
based, explicitly out of scope in the spec) and are passed in as function
parameters; a scraper that raises an exception is modelled as one that
returns `Except.error`, and since the Python engines contain no
try/except around scraper invocations, the embedded engines propagate
such errors.  Scraper invocations are counted in the engine result so
that "the scraper was not invoked" is an observable statement.
-/

namespace ICalls

/-! ## Character and string helpers (Python `str` operations on `List Char`) -/

/-- Python `a in s` for strings: `p` matches at the head of `s`. -/
def takeMatches : List Char → List Char → Bool
  | [], _ => true
  | _ :: _, [] => false
  | a :: as, b :: bs => a == b && takeMatches as bs

/-- Python `p in s` (substring occurrence) on character lists. -/
def occursData (p : List Char) : List Char → Bool
  | [] => p.isEmpty
  | c :: rest => takeMatches p (c :: rest) || occursData p rest

/-- Python `p in s` on strings. -/
def strOccurs (p s : String) : Bool := occursData p.data s.data

/-- Python `str.lower()` (ASCII, as in the strings this program handles). -/
def lowerStr (s : String) : String := ⟨s.data.map Char.toLower⟩

/-- Python `str.strip()`: drop whitespace from both ends. -/
def trimData (l : List Char) : List Char :=
  ((l.dropWhile Char.isWhitespace).reverse.dropWhile Char.isWhitespace).reverse

/-- Python `str.strip()` on strings. -/
def trimStr (s : String) : String := ⟨trimData s.data⟩

/-- Split on a single separator character, keeping empty pieces:
Python `s.split(sep)` for a one-character `sep`. -/
def splitOnCharAux (sep : Char) (cur : List Char) : List Char → List (List Char)
  | [] => [cur.reverse]
  | c :: rest =>
      if c = sep then cur.reverse :: splitOnCharAux sep [] rest
      else splitOnCharAux sep (c :: cur) rest

/-- Python `s.split(sep)` (one-character separator) on strings. -/
def splitOnChar (sep : Char) (s : String) : List String :=
  (splitOnCharAux sep [] s.data).map fun l => ⟨l⟩

/-- Split on runs of whitespace, dropping empty pieces: the tokenization
`strptime` performs for a blank in a format string (`\s+`). -/
def splitWsAux (cur : List Char) : List Char → List (List Char)
  | [] => if cur.isEmpty then [] else [cur.reverse]
  | c :: rest =>
      if c.isWhitespace then
        if cur.isEmpty then splitWsAux [] rest
        else cur.reverse :: splitWsAux [] rest
      else splitWsAux (c :: cur) rest

/-- Whitespace tokenization of a string. -/
def splitWs (s : String) : List String := (splitWsAux [] s.data).map fun l => ⟨l⟩

/-- Python string comparison `a < b` (lexicographic on code points). -/
def strLtData : List Char → List Char → Bool
  | [], [] => false
  | [], _ :: _ => true
  | _ :: _, [] => false
  | a :: as, b :: bs => a < b || (a == b && strLtData as bs)

/-- Python `", ".join(l)`. -/
def joinCommaSpace : List String → String
  | [] => ""
  | [s] => s
  | s :: rest => s ++ ", " ++ joinCommaSpace rest

/-! ## Dates (`datetime.date`, `parse_date_generic`, `(d - today).days`) -/

/-- A calendar date as `datetime.date` holds it. -/
structure Date where
  year : Nat
  month : Nat
  day : Nat
deriving DecidableEq

/-- Gregorian leap year, as `datetime` validates it. -/
def isLeapYear (y : Nat) : Bool := y % 4 == 0 && (y % 100 != 0 || y % 400 == 0)

/-- Length of a month, as `datetime` validates day-of-month. -/
def daysInMonth (y m : Nat) : Nat :=
  if m = 2 then (if isLeapYear y then 29 else 28)
  else if m = 4 ∨ m = 6 ∨ m = 9 ∨ m = 11 then 30
  else 31

/-- Day of year (1-based), summing full months before `m`. -/
def dayOfYear (y m d : Nat) : Nat :=
  (List.range (m - 1)).foldl (fun acc i => acc + daysInMonth y (i + 1)) 0 + d

/-- Rata-die day number of a date (proleptic Gregorian, year ≥ 1), so that
Python `(d1 - d2).days` equals `(ratadie d1 : Int) - ratadie d2`. -/
def ratadie (dt : Date) : Nat :=
  365 * (dt.year - 1) + (dt.year - 1) / 4 - (dt.year - 1) / 100 + (dt.year - 1) / 400
    + dayOfYear dt.year dt.month dt.day

/-- `datetime.date.max`, the sort sentinel for unparseable deadlines. -/
def dateMax : Date := ⟨9999, 12, 31⟩

/-- Is every character an ASCII digit, with the token non-empty? -/
def allDigits (l : List Char) : Bool :=
  !l.isEmpty && l.all fun c => '0' ≤ c && c ≤ '9'

/-- Numeric value of an ASCII digit string. -/
def digitsToNat (l : List Char) : Nat :=
  l.foldl (fun acc c => acc * 10 + (c.toNat - '0'.toNat)) 0

/-- strptime `%d`: a 1–2 digit day token with value 1..31 (pattern
`3[01]|[12]\d|0[1-9]|[1-9]`). -/
def parseDayTok (s : String) : Option Nat :=
  let l := s.data
  if allDigits l && l.length ≤ 2 && 1 ≤ digitsToNat l && digitsToNat l ≤ 31 then
    some (digitsToNat l)
  else none

/-- strptime `%m`: a 1–2 digit month token with value 1..12. -/
def parseMonthTok (s : String) : Option Nat :=
  let l := s.data
  if allDigits l && l.length ≤ 2 && 1 ≤ digitsToNat l && digitsToNat l ≤ 12 then
    some (digitsToNat l)
  else none

/-- strptime `%Y`: exactly four digits. -/
def parseYearTok (s : String) : Option Nat :=
  let l := s.data
  if allDigits l && l.length = 4 then some (digitsToNat l) else none

/-- strptime `%B`: full English month name, case-insensitive. -/
def monthFromFull (s : String) : Option Nat :=
  let t := lowerStr s
  if t = "january" then some 1 else if t = "february" then some 2
  else if t = "march" then some 3 else if t = "april" then some 4
  else if t = "may" then some 5 else if t = "june" then some 6
  else if t = "july" then some 7 else if t = "august" then some 8
  else if t = "september" then some 9 else if t = "october" then some 10
  else if t = "november" then some 11 else if t = "december" then some 12
  else none

/-- strptime `%b`: abbreviated English month name, case-insensitive. -/
def monthFromAbbr (s : String) : Option Nat :=
  let t := lowerStr s
  if t = "jan" then some 1 else if t = "feb" then some 2
  else if t = "mar" then some 3 else if t = "apr" then some 4
  else if t = "may" then some 5 else if t = "jun" then some 6
  else if t = "jul" then some 7 else if t = "aug" then some 8
  else if t = "sep" then some 9 else if t = "oct" then some 10
  else if t = "nov" then some 11 else if t = "dec" then some 12
  else none

/-- The validation `datetime.date(year, month, day)` performs (MINYEAR = 1). -/
def mkValidDate (y m d : Nat) : Option Date :=
  if 1 ≤ y ∧ y ≤ 9999 ∧ 1 ≤ m ∧ m ≤ 12 ∧ 1 ≤ d ∧ d ≤ daysInMonth y m then
    some ⟨y, m, d⟩
  else none

/-- One space-separated format `tokA tokB %Y` where the first two tokens are
interpreted by `fA`/`fB` as (day, month) in either order. -/
def tryThreeTok (toks : List String) (fA fB : String → Option Nat)
    (mk : Nat → Nat → Nat → Option Date) : Option Date :=
  match toks with
  | [t1, t2, t3] =>
      match fA t1, fB t2, parseYearTok t3 with
      | some a, some b, some y => mk a b y
      | _, _, _ => none
  | _ => none

/-- `parse_date_generic` from main_gui.py: strip commas and whitespace, then
try the formats `%d %B %Y`, `%d %b %Y`, `%B %d %Y`, `%b %d %Y`,
`%d/%m/%Y`, `%m/%d/%Y`, `%Y-%m-%d` in order; first success wins. -/
def parseDateGeneric (dateStr : String) : Option Date :=
  if dateStr = "" then none
  else
    let ds : String := ⟨trimData (dateStr.data.filter (· ≠ ','))⟩
    let toksWs := splitWs ds
    let f1 := tryThreeTok toksWs parseDayTok monthFromFull fun d m y => mkValidDate y m d
    match f1 with
    | some dt => some dt
    | none =>
    match tryThreeTok toksWs parseDayTok monthFromAbbr fun d m y => mkValidDate y m d with
    | some dt => some dt
    | none =>
    match tryThreeTok toksWs monthFromFull parseDayTok fun m d y => mkValidDate y m d with
    | some dt => some dt
    | none =>
    match tryThreeTok toksWs monthFromAbbr parseDayTok fun m d y => mkValidDate y m d with
    | some dt => some dt
    | none =>
    let toksSlash := splitOnChar '/' ds
    match tryThreeTok toksSlash parseDayTok parseMonthTok fun d m y => mkValidDate y m d with
    | some dt => some dt
    | none =>
    match tryThreeTok toksSlash parseMonthTok parseDayTok fun m d y => mkValidDate y m d with
    | some dt => some dt
    | none =>
    match splitOnChar '-' ds with
    | [t1, t2, t3] =>
        match parseYearTok t1, parseMonthTok t2, parseDayTok t3 with
        | some y, some m, some d => mkValidDate y m d
        | _, _, _ => none
    | _ => none

/-! ## Records, slugs and the cache store -/

/-- One funding-call record as the international engines handle it (the
dict built by scrapers and by `load_cache`). -/
structure Call where
  title : String
  link : String
  opening_date : String
  deadline_date : String
  description : String
  ods_list : List String
  site : String
deriving DecidableEq

/-- One CSV row of an international cache file (the columns `save_cache`
writes and `load_cache` reads). -/
structure Row where
  title : String
  link : String
  opening_date : String
  deadline_date : String
  description : String
  ods_classification : String
  site : String
deriving DecidableEq

/-- One national-mode record (has the extra `type` field). -/
structure NCall where
  title : String
  link : String
  opening_date : String
  deadline_date : String
  description : String
  ods_list : List String
  site : String
  type : String
deriving DecidableEq

/-- One CSV row of a national cache file. -/
structure NRow where
  title : String
  link : String
  opening_date : String
  deadline_date : String
  description : String
  ods_classification : String
  site : String
  type : String
deriving DecidableEq

/-- `slugify` from utils.py: lowercase, spaces to underscores, drop anything
that is not `[a-z0-9_]`. -/
def slugify (s : String) : String :=
  ⟨((s.data.map Char.toLower).map fun c => if c = ' ' then '_' else c).filter
      fun c => ('a' ≤ c && c ≤ 'z') || ('0' ≤ c && c ≤ '9') || c = '_'⟩

/-- `theme_slug = slugify(theme_filter) if theme_filter else "no_select"`. -/
def themeSlugOf (theme : String) : String :=
  if theme = "" then "no_select" else slugify theme

/-- `ods_slug = ods_number if ods_number else "no_select"`. -/
def odsSlugOf (ods : String) : String := if ods = "" then "no_select" else ods

/-- Cache file name: `cache_{site_slug}_{theme_slug}_{ods}.csv`. -/
def fname (siteSlug themeSlug odsSlug : String) : String :=
  "cache_" ++ siteSlug ++ "_" ++ themeSlug ++ "_" ++ odsSlug ++ ".csv"

/-- The on-disk cache directory: maps a file name to `none` (file absent)
or to the list of its rows, each row either parsed or failing to parse
(a row-level exception while reading). -/
def Store := String → Option (List (Except Unit Row))

/-- The empty cache directory. -/
def emptyStore : Store := fun _ => none

/-! ## load_cache / save_cache (international) -/

/-- One loaded row of `load_cache`: the `ods_classification` column is split
on commas, entries are stripped, empties dropped, and an empty result
defaults to `["unknown"]`. -/
def rowToCall (r : Row) : Call :=
  let ods0 := ((splitOnChar ',' r.ods_classification).map trimStr).filter (· ≠ "")
  { title := r.title
    link := r.link
    opening_date := r.opening_date
    deadline_date := r.deadline_date
    description := r.description
    ods_list := if ods0.isEmpty then ["unknown"] else ods0
    site := r.site }

/-- The row loop of `load_cache`: rows are appended one by one; a row-level
exception aborts the whole read and the `except` clause returns `[]`,
discarding the rows already parsed. -/
def loadRowsAux (acc : List Call) : List (Except Unit Row) → List Call
  | [] => acc.reverse
  | .ok r :: rest => loadRowsAux (rowToCall r :: acc) rest
  | .error _ :: _ => []

/-- `load_cache` given the content found at the partition's file name:
empty list when the file is absent, otherwise the row loop above. -/
def loadCacheFile : Option (List (Except Unit Row)) → List Call
  | none => []
  | some rows => loadRowsAux [] rows

/-- `load_cache(site_slug, theme_slug, ods)` against a store. -/
def loadCacheSt (st : Store) (siteSlug themeSlug odsSlug : String) : List Call :=
  loadCacheFile (st (fname siteSlug themeSlug odsSlug))

/-- Serialization of one call by `save_cache` (`ods_list` comma-joined). -/
def callToRow (c : Call) : Row :=
  { title := c.title
    link := c.link
    opening_date := c.opening_date
    deadline_date := c.deadline_date
    description := c.description
    ods_classification := joinCommaSpace c.ods_list
    site := c.site }

/-- `save_cache`: overwrite the partition wholesale with the given records. -/
def saveCacheSt (st : Store) (siteSlug themeSlug odsSlug : String)
    (calls : List Call) : Store :=
  fun k =>
    if k = fname siteSlug themeSlug odsSlug then
      some (calls.map fun c => .ok (callToRow c))
    else st k

/-! ## load_national_cache / save_national_cache -/

/-- One loaded row of `load_national_cache`: the stored field is split on
commas with NO stripping and NO empty-filtering
(`row.get("ods_classification", "unknown").split(",")`). -/
def nRowToCall (r : NRow) : NCall :=
  { title := r.title
    link := r.link
    opening_date := r.opening_date
    deadline_date := r.deadline_date
    description := r.description
    ods_list := splitOnChar ',' r.ods_classification
    site := r.site
    type := r.type }

/-- The row loop of `load_national_cache`, same whole-file except clause. -/
def loadNRowsAux (acc : List NCall) : List (Except Unit NRow) → List NCall
  | [] => acc.reverse
  | .ok r :: rest => loadNRowsAux (nRowToCall r :: acc) rest
  | .error _ :: _ => []

/-- `load_national_cache` given the content found at the partition's file. -/
def loadNationalFile : Option (List (Except Unit NRow)) → List NCall
  | none => []
  | some rows => loadNRowsAux [] rows

/-- Serialization of one national call by `save_national_cache`. -/
def nCallToRow (c : NCall) : NRow :=
  { title := c.title
    link := c.link
    opening_date := c.opening_date
    deadline_date := c.deadline_date
    description := c.description
    ods_classification := joinCommaSpace c.ods_list
    site := c.site
    type := c.type }

/-! ## classify_ods (summarizer.py) -/

/-- The SDG keyword table of `classify_ods`, in dict insertion order. -/
def odsKeywords : List (String × List String) :=
  [("1", ["poverty", "poor", "income", "social protection", "financial",
          "eradicate poverty"]),
   ("2", ["hunger", "food", "nutrition", "agriculture", "farmers",
          "food security", "malnutrition"]),
   ("3", ["health", "well-being", "disease", "medical", "medicine",
          "healthcare", "infection", "mental"]),
   ("4", ["education", "learning", "school", "literacy", "training",
          "academic", "skills"]),
   ("5", ["gender", "women", "girls", "equality", "empower",
          "discrimination", "violence against women"]),
   ("6", ["water", "sanitation", "clean water", "wastewater", "hygiene",
          "drinking water"]),
   ("7", ["energy", "renewable", "clean energy", "electricity", "power",
          "affordable energy"]),
   ("8", ["employment", "jobs", "work", "economic growth", "productivity",
          "labor", "business", "entrepreneurship"]),
   ("9", ["industry", "innovation", "infrastructure", "technology",
          "engineering", "development", "transport", "communication",
          "manufacturing"]),
   ("10", ["inequality", "marginalized", "equal opportunity",
           "income disparity", "discrimination", "disabled"]),
   ("11", ["urban", "city", "community", "housing", "transport",
           "infrastructure", "public space", "resilience", "urbanization"]),
   ("12", ["consumption", "production", "sustainable", "recycling", "waste",
           "supply chain", "resource efficiency"]),
   ("13", ["climate", "global warming", "greenhouse", "carbon", "emissions",
           "resilience", "climate change", "mitigation", "adaptation"]),
   ("14", ["oceans", "sea", "marine", "fish", "aquatic",
           "marine biodiversity", "overfishing", "coral"]),
   ("15", ["forests", "land", "biodiversity", "ecosystems", "flora", "fauna",
           "wildlife", "conservation", "soil", "deforestation",
           "desertification"]),
   ("16", ["peace", "justice", "institutions", "rule of law", "human rights",
           "transparency", "corruption", "violence", "democracy"]),
   ("17", ["partnership", "cooperation", "international", "finance",
           "capacity-building", "technology transfer", "policy", "global",
           "collaboration", "alliances"])]

/-- Stable insertion of a string into a list sorted by numeric value
(`sorted(..., key=lambda x: int(x))` building block). -/
def insertByNum (x : String) : List String → List String
  | [] => [x]
  | y :: ys =>
      if digitsToNat x.data ≤ digitsToNat y.data then x :: y :: ys
      else y :: insertByNum x ys

/-- `sorted(set(matched), key=lambda x: int(x))`: first occurrences kept,
then sorted numerically (stable, hence equal to Python's sort). -/
def sortByNumDedup (l : List String) : List String :=
  (l.dedup).foldr insertByNum []

/-- `classify_ods` from summarizer.py. -/
def classifyOds (summary : String) : List String :=
  if summary = "" then ["unknown"]
  else
    let text := lowerStr summary
    let matched :=
      (odsKeywords.filter fun p => p.2.any fun kw => strOccurs kw text).map (·.1)
    if matched.isEmpty then ["unknown"] else sortByNumDedup matched

/-- The valid SDG tag strings a record's `ods_list` may contain. -/
def validTags : List String :=
  ["unknown", "1", "2", "3", "4", "5", "6", "7", "8", "9", "10", "11", "12",
   "13", "14", "15", "16", "17"]

/-! ## Filter predicates of the engines -/

/-- Expiry test `d is not None and (d - today).days < 7` on a deadline
string. -/
def expiredStr (today : Date) (s : String) : Bool :=
  match parseDateGeneric s with
  | some d => decide ((ratadie d : Int) - (ratadie today : Int) < 7)
  | none => false

/-- A record is expired when its deadline parses and closes within 7 days. -/
def isExpired (today : Date) (c : Call) : Bool := expiredStr today c.deadline_date

/-- ODS filter: `ods_number and ods_number not in call["ods_list"]` skips. -/
def odsOk (ods : String) (c : Call) : Bool := ods = "" || c.ods_list.contains ods

/-- Keyword filter: keyword (lowered) must occur in lowered title or lowered
description, when a keyword is given. -/
def kwOk (kw : String) (c : Call) : Bool :=
  kw = "" || strOccurs (lowerStr kw) (lowerStr c.title)
    || strOccurs (lowerStr kw) (lowerStr c.description)

/-- The conjunction of checks every engine loop applies to a candidate:
not expired, passes the ODS filter, passes the keyword filter. -/
def keepCall (ods kw : String) (today : Date) (c : Call) : Bool :=
  !(isExpired today c) && odsOk ods c && kwOk kw c

/-! ## Sorting (`sorted(key=(parsed deadline or date.max, title))`) -/

/-- The date component of the sort key, as a rata-die number (`date.max`
for unparseable deadlines); rata die is strictly monotone in date order,
so comparing it equals comparing the `date` objects. -/
def sortKeyDate (c : Call) : Nat :=
  match parseDateGeneric c.deadline_date with
  | some d => ratadie d
  | none => ratadie dateMax

/-- Tuple comparison `(date_a, title_a) <= (date_b, title_b)` as Python
orders sort keys. -/
def callLe (a b : Call) : Bool :=
  sortKeyDate a < sortKeyDate b
    || (sortKeyDate a == sortKeyDate b && !(strLtData b.title.data a.title.data))

/-- Stable insertion before the first strictly larger element. -/
def insertCall (c : Call) : List Call → List Call
  | [] => [c]
  | x :: xs => if callLe c x then c :: x :: xs else x :: insertCall c xs

/-- Stable insertion sort by `callLe`.  Python's `sorted` is a stable sort
with respect to the same total preorder on keys, and a stable sort's
output is unique, so this equals Python's `sorted(...)`. -/
def sortCalls : List Call → List Call
  | [] => []
  | c :: rest => insertCall c (sortCalls rest)

/-! ## The shared loop shapes of the engines -/

/-- The cache-filter loop: keep records that pass the checks, appending each
and breaking as soon as the accumulated count reaches the limit.  `n` is
the number of records already accumulated. -/
def collectValidAux (keep : Call → Bool) (limit : Int) (n : Int) :
    List Call → List Call
  | [] => []
  | c :: rest =>
      if keep c then
        if n + 1 ≥ limit then [c]
        else c :: collectValidAux keep limit (n + 1) rest
      else collectValidAux keep limit n rest

/-- The cache-filter loop started with an empty accumulator. -/
def collectValid (keep : Call → Bool) (limit : Int) (l : List Call) : List Call :=
  collectValidAux keep limit 0 l

/-- The scraped-candidate loop shared by `cached_scrape`, `load_portal_calls`
and `load_all_calls`: break at the top when the combined count `n` reached
the limit, skip empty or already-seen links, re-validate, accept.  Returns
only the newly accepted records, in order. -/
def acceptNew (keep : Call → Bool) (limit : Int) (n : Int) (seen : List String) :
    List Call → List Call
  | [] => []
  | c :: rest =>
      if n ≥ limit then []
      else if c.link = "" || seen.contains c.link then
        acceptNew keep limit n seen rest
      else if keep c then c :: acceptNew keep limit (n + 1) (c.link :: seen) rest
      else acceptNew keep limit n seen rest

/-- The backfill loop of `load_portal_calls` over the aggregated "all"
partition: only records whose slugified site equals the portal slug are
considered, re-validated, deduplicated against seen links, capped at 10.
Returns only the newly accepted records. -/
def backfillLoop (pSlug : String) (keep : Call → Bool) (n : Int)
    (seen : List String) : List Call → List Call
  | [] => []
  | c :: rest =>
      if n ≥ 10 then []
      else if slugify c.site ≠ pSlug then backfillLoop pSlug keep n seen rest
      else if !(keep c) then backfillLoop pSlug keep n seen rest
      else if seen.contains c.link then backfillLoop pSlug keep n seen rest
      else c :: backfillLoop pSlug keep (n + 1) (c.link :: seen) rest

/-! ## The engines -/

/-- A site scraper, invoked with a result budget.  The theme, SDG, keyword
and date arguments the Python code passes are fixed for the whole engine
call, so they are already closed over.  A scraper that raises is one that
returns `Except.error`. -/
def Scraper := Int → Except Unit (List Call)

/-- What an engine call produces: the returned records, the cache directory
after the call's writes, and how many scraper invocations it made. -/
structure EngineRes where
  calls : List Call
  store : Store
  scrapes : Nat

/-- The returned list of an engine outcome (`[]` when it raised). -/
def okCalls : Except Unit EngineRes → List Call
  | .ok er => er.calls
  | .error _ => []

/-- The store of an engine outcome (the pre-state when it raised). -/
def okStore (st : Store) : Except Unit EngineRes → Store
  | .ok er => er.store
  | .error _ => st

/-- `cached_scrape` from main_gui.py: empty on a non-positive budget, cache
load, filter with short-circuit at the cap, fast path without scraping or
writing when the cache suffices, otherwise scrape, re-validate and dedup
the candidates, persist the combination, and return it sorted and capped. -/
def cachedScrape (siteName : String) (scraper : Scraper) (theme ods kw : String)
    (maxResults : Int) (today : Date) (st : Store) : Except Unit EngineRes :=
  if maxResults ≤ 0 then .ok ⟨[], st, 0⟩
  else
    let siteSlug := slugify siteName
    let tS := themeSlugOf theme
    let oS := odsSlugOf ods
    let keep := keepCall ods kw today
    let valid := collectValid keep maxResults (loadCacheSt st siteSlug tS oS)
    if (valid.length : Int) ≥ maxResults then
      .ok ⟨(sortCalls valid).take maxResults.toNat, st, 0⟩
    else
      match scraper maxResults with
      | .error e => .error e
      | .ok newCalls =>
          let combined :=
            valid ++ acceptNew keep maxResults (valid.length : Int)
              (valid.map (·.link)) newCalls
          .ok ⟨(sortCalls combined).take maxResults.toNat,
               saveCacheSt st siteSlug tS oS combined, 1⟩

/-- A raw candidate as `get_calls_page` returns it for the EU portal. -/
structure EuRaw where
  title : String
  link : String
  opening_date : String
  deadline_date : String
deriving DecidableEq

/-- The description-fetch and summarize step of `scrape_eu_calls`:
`desc = fetch_and_extract_description(driver, link)` and
`summary = summarize_text(desc if desc else title)`. -/
def euSummary (fetchDesc summarize : String → String) (r : EuRaw) : String :=
  let desc := fetchDesc r.link
  summarize (if desc ≠ "" then desc else r.title)

/-- The per-page candidate loop of `scrape_eu_calls`: cap against `needed`,
skip empty or seen links, expiry check, then fetch the description,
summarize, classify, apply the ODS and keyword filters and build the
record.  Threads the accumulated new calls and the seen-link set. -/
def euAccept (fetchDesc summarize : String → String) (ods kw : String)
    (today : Date) (needed : Int) :
    List EuRaw → List Call → List String → List Call × List String
  | [], acc, seen => (acc, seen)
  | r :: rest, acc, seen =>
      if (acc.length : Int) ≥ needed then (acc, seen)
      else if r.link = "" || seen.contains r.link then
        euAccept fetchDesc summarize ods kw today needed rest acc seen
      else if expiredStr today r.deadline_date then
        euAccept fetchDesc summarize ods kw today needed rest acc seen
      else
        let summary := euSummary fetchDesc summarize r
        let odsL := classifyOds summary
        if ods ≠ "" && !(odsL.contains ods) then
          euAccept fetchDesc summarize ods kw today needed rest acc seen
        else if kw ≠ "" && !(strOccurs (lowerStr kw) (lowerStr r.title))
            && !(strOccurs (lowerStr kw) (lowerStr summary)) then
          euAccept fetchDesc summarize ods kw today needed rest acc seen
        else
          let c : Call :=
            ⟨r.title, r.link, r.opening_date, r.deadline_date, summary,
             if odsL.isEmpty then ["unknown"] else odsL, "European Commission"⟩
          euAccept fetchDesc summarize ods kw today needed rest (acc ++ [c])
            (r.link :: seen)

/-- The page loop of `scrape_eu_calls`: while fewer than `needed` new calls,
fewer than 5 consecutive empty pages and the page number is at most 10,
fetch a page and process it.  `fuel` is `11 - page_num`, so the loop is
structural; the second component counts fetched pages. -/
def euLoop (getPage : Nat → List EuRaw) (fetchDesc summarize : String → String)
    (ods kw : String) (today : Date) (needed : Int) :
    Nat → Nat → List Call → List String → List Call × Nat
  | 0, _, acc, _ => (acc, 0)
  | fuel + 1, ce, acc, seen =>
      if (acc.length : Int) < needed ∧ ce < 5 then
        let page := getPage (10 - fuel)
        if page.isEmpty then
          let r := euLoop getPage fetchDesc summarize ods kw today needed fuel
            (ce + 1) acc seen
          (r.1, r.2 + 1)
        else
          let step := euAccept fetchDesc summarize ods kw today needed page acc seen
          let r := euLoop getPage fetchDesc summarize ods kw today needed fuel
            ce step.1 step.2
          (r.1, r.2 + 1)
      else (acc, 0)

/-- `scrape_eu_calls` from main_gui.py.  The page fetcher (closed over the
theme), the description fetcher and the summarizer are the external
Selenium collaborators.  The third result component counts fetched pages
(0 exactly when no scraping happened). -/
def scrapeEuCalls (getPage : Nat → List EuRaw) (fetchDesc summarize : String → String)
    (theme ods kw : String) (maxResults : Int) (today : Date) (st : Store) :
    EngineRes :=
  if maxResults ≤ 0 then ⟨[], st, 0⟩
  else
    let tS := themeSlugOf theme
    let oS := odsSlugOf ods
    let keep := keepCall ods kw today
    let valid := collectValid keep maxResults (loadCacheSt st "european_commission" tS oS)
    if (valid.length : Int) ≥ maxResults then
      ⟨sortCalls (valid.take maxResults.toNat), st, 0⟩
    else
      let needed := maxResults - (valid.length : Int)
      let scraped := euLoop getPage fetchDesc summarize ods kw today needed 10 0
        [] (valid.map (·.link))
      let updated := valid ++ scraped.1
      ⟨(sortCalls updated).take maxResults.toNat,
       saveCacheSt st "european_commission" tS oS updated, scraped.2⟩

/-- `load_portal_calls` from main_gui.py: cache load and filter, fast path
(no write at all) when 10 remain, backfill from the aggregated "all"
partition, scrape the deficit, persist the sorted result to the portal
partition, then rebuild the "all" partition by replacing all records whose
slugified site equals the portal slug, and return the first 10. -/
def loadPortalCalls (portalName : String) (scraper : Scraper)
    (theme ods kw : String) (today : Date) (scrapeIfNeeded : Bool) (st : Store) :
    Except Unit EngineRes :=
  let pSlug := slugify portalName
  let tS := themeSlugOf theme
  let oS := odsSlugOf ods
  let keep := keepCall ods kw today
  let fp1 := collectValid keep 10 (loadCacheSt st pSlug tS oS)
  if (fp1.length : Int) ≥ 10 then
    .ok ⟨(sortCalls fp1).take 10, st, 0⟩
  else
    let fp2 := fp1 ++ backfillLoop pSlug keep (fp1.length : Int)
      (fp1.map (·.link)) (loadCacheSt st "all" tS oS)
    let needed : Int := 10 - (fp2.length : Int)
    let scraped : Except Unit (List Call) :=
      if 0 < needed ∧ scrapeIfNeeded then
        match scraper needed with
        | .error e => .error e
        | .ok newCalls =>
            .ok (acceptNew keep 10 (fp2.length : Int) (fp2.map (·.link)) newCalls)
      else .ok []
    match scraped with
    | .error e => .error e
    | .ok accepted =>
        let sortedPortal := sortCalls (fp2 ++ accepted)
        let st1 := saveCacheSt st pSlug tS oS sortedPortal
        let remaining := (loadCacheSt st1 "all" tS oS).filter
          fun c => slugify c.site != pSlug
        let st2 := saveCacheSt st1 "all" tS oS (remaining ++ sortedPortal)
        .ok ⟨sortedPortal.take 10, st2,
             if 0 < needed ∧ scrapeIfNeeded then 1 else 0⟩

/-- The portals of `load_all_calls`, in the insertion order of its
`portal_map`. -/
def portalNames : List String :=
  ["European Commission", "Wellcome", "Academy of Finland", "ANR", "IBRO", "IDRC"]

/-- One scraper per portal name. -/
def AllScrapers := String → Scraper

/-- The per-portal loop of `load_all_calls`: for each portal, load its own
partition, filter with the 10-cap, scrape the deficit and re-validate,
sort and cap at 10, persist the portal partition, and append to the
aggregate.  A scraper error propagates immediately. -/
def loadAllGo (scr : AllScrapers) (theme ods kw : String) (today : Date) :
    List String → Store → List Call → Nat → Except Unit (List Call × Store × Nat)
  | [], st, agg, n => .ok (agg, st, n)
  | p :: rest, st, agg, n =>
      let tS := themeSlugOf theme
      let oS := odsSlugOf ods
      let keep := keepCall ods kw today
      let fp := collectValid keep 10 (loadCacheSt st (slugify p) tS oS)
      let stepRes : Except Unit (List Call × Nat) :=
        if (fp.length : Int) < 10 then
          match scr p (10 - (fp.length : Int)) with
          | .error e => .error e
          | .ok newCalls =>
              .ok (fp ++ acceptNew keep 10 (fp.length : Int) (fp.map (·.link))
                newCalls, 1)
        else .ok (fp, 0)
      match stepRes with
      | .error e => .error e
      | .ok (fpF, dn) =>
          let sortedPortal := (sortCalls fpF).take 10
          loadAllGo scr theme ods kw today rest
            (saveCacheSt st (slugify p) tS oS sortedPortal)
            (agg ++ sortedPortal) (n + dn)

/-- `load_all_calls` from main_gui.py: run the per-portal loop over every
configured portal, persist the concatenation under the "all" signature,
and return the full sorted concatenation without a global cap. -/
def loadAllCalls (scr : AllScrapers) (theme ods kw : String) (today : Date)
    (st : Store) : Except Unit EngineRes :=
  match loadAllGo scr theme ods kw today portalNames st [] 0 with
  | .error e => .error e
  | .ok (agg, st1, n) =>
      .ok ⟨sortCalls agg,
           saveCacheSt st1 "all" (themeSlugOf theme) (odsSlugOf ods) agg, n⟩

/-- What the claim says `load_cache` does with a corrupt partition: catch
each row-level parse error and skip only that row.  Stated from the
claim's words, for comparison with `loadCacheFile` translated from the
code. -/
def loadCacheSkipRows : Option (List (Except Unit Row)) → List Call
  | none => []
  | some rows =>
      rows.filterMap fun x =>
        match x with
        | .ok r => some (rowToCall r)
        | .error _ => none

/-- The save-then-load round trip applied to one record. -/
def rt (c : Call) : Call := rowToCall (callToRow c)

/-- The per-portal body of `load_all_calls`, as a function of the store the
portal's turn starts from: load the portal partition, filter with the
10-cap, scrape the deficit and re-validate on success, sort, cap at 10. -/
def contribAll (scr : AllScrapers) (theme ods kw : String) (today : Date)
    (st : Store) (p : String) : List Call :=
  let tS := themeSlugOf theme
  let oS := odsSlugOf ods
  let keep := keepCall ods kw today
  let fp := collectValid keep 10 (loadCacheSt st (slugify p) tS oS)
  let fpF :=
    if (fp.length : Int) < 10 then
      match scr p (10 - (fp.length : Int)) with
      | .error _ => fp
      | .ok newCalls =>
          fp ++ acceptNew keep 10 (fp.length : Int) (fp.map (·.link)) newCalls
    else fp
  (sortCalls fpF).take 10

/-- Saving one partition per portal name, with a fixed content function. -/
def foldSaves (f : String → List Call) (tS oS : String) :
    List String → Store → Store
  | [], st => st
  | p :: rest, st => foldSaves f tS oS rest (saveCacheSt st (slugify p) tS oS (f p))

/-- The valid records `cached_scrape` keeps from its cache partition before
deciding whether to scrape (also the EU-portal variant used by
`load_all_calls` steps). -/
def csValid (siteName theme ods kw : String) (maxResults : Int) (today : Date)
    (st : Store) : List Call :=
  collectValid (keepCall ods kw today) maxResults
    (loadCacheSt st (slugify siteName) (themeSlugOf theme) (odsSlugOf ods))

/-- The valid records `scrape_eu_calls` keeps from the EU cache partition
before deciding whether to scrape. -/
def euValid (theme ods kw : String) (maxResults : Int) (today : Date)
    (st : Store) : List Call :=
  collectValid (keepCall ods kw today) maxResults
    (loadCacheSt st "european_commission" (themeSlugOf theme) (odsSlugOf ods))

/-- The valid records `load_portal_calls` accumulates from its own partition
plus the backfill from the aggregated "all" partition, before deciding
whether to scrape. -/
def portalValidPart (portalName theme ods kw : String) (today : Date)
    (st : Store) : List Call :=
  let pSlug := slugify portalName
  let tS := themeSlugOf theme
  let oS := odsSlugOf ods
  let keep := keepCall ods kw today
  let fp1 := collectValid keep 10 (loadCacheSt st pSlug tS oS)
  fp1 ++ backfillLoop pSlug keep (fp1.length : Int) (fp1.map (·.link))
    (loadCacheSt st "all" tS oS)

/-! ## Concrete fixtures for witnesses and counterexamples -/

/-- A sample current date. -/
def d0 : Date := ⟨2025, 1, 1⟩

/-- A Wellcome record with a far-future parseable deadline. -/
def wCall : Call :=
  ⟨"w", "http://w", "", "01/01/2030", "", ["unknown"], "Wellcome"⟩

/-- A store holding only the Wellcome partition with `wCall` in it. -/
def wStore : Store := fun k =>
  if k = fname "wellcome" "no_select" "no_select" then
    some [.ok (callToRow wCall)]
  else none

/-- An EU record whose link is mirrored by a Wellcome record. -/
def mirrorEu : Call :=
  ⟨"a", "http://mirror", "", "", "", ["unknown"], "European Commission"⟩

/-- The Wellcome record mirroring `mirrorEu`'s link. -/
def mirrorWc : Call :=
  ⟨"b", "http://mirror", "", "", "", ["unknown"], "Wellcome"⟩

/-- Scrapers where two portals return candidates with the same link. -/
def mirrorScrapers : AllScrapers := fun p => fun _ =>
  if p = "European Commission" then .ok [mirrorEu]
  else if p = "Wellcome" then .ok [mirrorWc]
  else .ok []

/-- A Wellcome partition already holding two rows with the same link. -/
def dupStore : Store := fun k =>
  if k = fname "wellcome" "no_select" "no_select" then
    some [.ok (callToRow mirrorWc),
          .ok (callToRow ⟨"c", "http://mirror", "", "", "", ["unknown"], "Wellcome"⟩)]
  else none

/-- A perfectly parseable cache row. -/
def goodRow : Row := ⟨"t", "http://r", "", "", "", "3", "Wellcome"⟩

/-- A national record whose `ods_list` is a two-tag classifier output. -/
def natCall : NCall :=
  ⟨"t", "http://n", "", "", "", classifyOds "health food", "MinEnergía", "Proyectos"⟩

/-- Six records for one site, one per name, link equal to the name. -/
def bigList (site : String) (names : List String) : List Call :=
  names.map fun nm => ⟨nm, nm, "", "", "", ["unknown"], site⟩

/-- Scrapers giving the EU portal and Wellcome six fresh records each. -/
def bigScrapers : AllScrapers := fun p => fun _ => .ok
  (if p = "European Commission" then
    bigList "European Commission" ["e1", "e2", "e3", "e4", "e5", "e6"]
  else if p = "Wellcome" then
    bigList "Wellcome" ["w1", "w2", "w3", "w4", "w5", "w6"]
  else [])

/-- A freshly scraped Wellcome record. -/
def wNew : Call := ⟨"nw", "http://nw", "", "", "", ["unknown"], "Wellcome"⟩

/-- A scraper producing only `wNew`. -/
def wScraper : Scraper := fun _ => .ok [wNew]

/-! ## Lemmas about sorting -/

theorem insertCall_perm (c : Call) (l : List Call) :
    List.Perm (insertCall c l) (c :: l) := by
  induction l with
  | nil => simp [insertCall]
  | cons x xs ih =>
      simp only [insertCall]
      split
      · exact List.Perm.refl _
      · exact (ih.cons x).trans (List.Perm.swap c x xs)

theorem sortCalls_perm (l : List Call) : List.Perm (sortCalls l) l := by
  induction l with
  | nil => simp [sortCalls]
  | cons c rest ih =>
      exact (insertCall_perm c (sortCalls rest)).trans (ih.cons c)

theorem mem_sortCalls {a : Call} {l : List Call} : a ∈ sortCalls l ↔ a ∈ l :=
  (sortCalls_perm l).mem_iff

theorem length_sortCalls (l : List Call) : (sortCalls l).length = l.length :=
  (sortCalls_perm l).length_eq

/-! ## Lemmas about the engine loops -/

theorem mem_collectValidAux {keep : Call → Bool} {limit : Int} {a : Call} :
    ∀ {l : List Call} {n : Int}, a ∈ collectValidAux keep limit n l →
      keep a = true ∧ a ∈ l := by
  intro l
  induction l with
  | nil => intro n h; simp [collectValidAux] at h
  | cons c rest ih =>
      intro n h
      simp only [collectValidAux] at h
      split at h
      · next hk =>
          split at h
          · simp only [List.mem_singleton] at h
            subst h; exact ⟨hk, List.mem_cons_self _ _⟩
          · rcases List.mem_cons.mp h with h1 | h2
            · subst h1; exact ⟨hk, List.mem_cons_self _ _⟩
            · rcases ih h2 with ⟨hka, hma⟩
              exact ⟨hka, List.mem_cons_of_mem _ hma⟩
      · rcases ih h with ⟨hka, hma⟩
        exact ⟨hka, List.mem_cons_of_mem _ hma⟩

theorem mem_collectValid {keep : Call → Bool} {limit : Int} {l : List Call}
    {a : Call} (h : a ∈ collectValid keep limit l) : keep a = true ∧ a ∈ l :=
  mem_collectValidAux h

theorem collectValidAux_sublist (keep : Call → Bool) (limit : Int) :
    ∀ (l : List Call) (n : Int), List.Sublist (collectValidAux keep limit n l) l := by
  intro l
  induction l with
  | nil => intro n; simp [collectValidAux]
  | cons c rest ih =>
      intro n
      simp only [collectValidAux]
      split
      · split
        · exact (List.nil_sublist rest).cons₂ c
        · exact (ih (n + 1)).cons₂ c
      · exact (ih n).cons c

theorem collectValid_sublist (keep : Call → Bool) (limit : Int) (l : List Call) :
    List.Sublist (collectValid keep limit l) l :=
  collectValidAux_sublist keep limit l 0

theorem mem_acceptNew {keep : Call → Bool} {limit : Int} {a : Call} :
    ∀ {l : List Call} {n : Int} {seen : List String},
      a ∈ acceptNew keep limit n seen l →
      keep a = true ∧ a ∈ l ∧ a.link ∉ seen ∧ a.link ≠ "" := by
  intro l
  induction l with
  | nil => intro n seen h; simp [acceptNew] at h
  | cons c rest ih =>
      intro n seen h
      simp only [acceptNew] at h
      split at h
      · simp at h
      · split at h
        · next hskip =>
            rcases ih h with ⟨h1, h2, h3, h4⟩
            exact ⟨h1, List.mem_cons_of_mem _ h2, h3, h4⟩
        · next hskip =>
            simp only [Bool.or_eq_true, decide_eq_true_eq, not_or,
              Bool.not_eq_true] at hskip
            split at h
            · next hk =>
                rcases List.mem_cons.mp h with h1 | h2
                · subst h1
                  refine ⟨hk, List.mem_cons_self _ _, ?_, ?_⟩
                  · intro hmem
                    have hc : seen.contains a.link = true := List.elem_iff.mpr hmem
                    rw [hskip.2] at hc
                    exact Bool.false_ne_true hc
                  · exact hskip.1
                · rcases ih h2 with ⟨h1', h2', h3', h4'⟩
                  refine ⟨h1', List.mem_cons_of_mem _ h2', ?_, h4'⟩
                  intro hmem
                  exact h3' (List.mem_cons_of_mem _ hmem)
            · rcases ih h with ⟨h1, h2, h3, h4⟩
              exact ⟨h1, List.mem_cons_of_mem _ h2, h3, h4⟩

theorem acceptNew_links_nodup {keep : Call → Bool} {limit : Int} :
    ∀ (l : List Call) (n : Int) (seen : List String),
      ((acceptNew keep limit n seen l).map (·.link)).Nodup := by
  intro l
  induction l with
  | nil => intro n seen; simp [acceptNew]
  | cons c rest ih =>
      intro n seen
      simp only [acceptNew]
      split
      · simp
      · split
        · exact ih n seen
        · split
          · simp only [List.map_cons, List.nodup_cons]
            refine ⟨?_, ih (n + 1) (c.link :: seen)⟩
            intro hmem
            rcases List.mem_map.mp hmem with ⟨b, hb, hlink⟩
            rcases mem_acceptNew hb with ⟨_, _, hnotin, _⟩
            exact hnotin (by simp [hlink])
          · exact ih n seen


theorem mem_backfillLoop {pSlug : String} {keep : Call → Bool} {a : Call} :
    ∀ {l : List Call} {n : Int} {seen : List String},
      a ∈ backfillLoop pSlug keep n seen l →
      keep a = true ∧ a ∈ l ∧ a.link ∉ seen ∧ slugify a.site = pSlug := by
  intro l
  induction l with
  | nil => intro n seen h; simp [backfillLoop] at h
  | cons c rest ih =>
      intro n seen h
      simp only [backfillLoop] at h
      split at h
      · simp at h
      · split at h
        · rcases ih h with ⟨h1, h2, h3, h4⟩
          exact ⟨h1, List.mem_cons_of_mem _ h2, h3, h4⟩
        · next hslug =>
            rw [not_not] at hslug
            split at h
            · rcases ih h with ⟨h1, h2, h3, h4⟩
              exact ⟨h1, List.mem_cons_of_mem _ h2, h3, h4⟩
            · next hnkeep =>
                split at h
                · rcases ih h with ⟨h1, h2, h3, h4⟩
                  exact ⟨h1, List.mem_cons_of_mem _ h2, h3, h4⟩
                · next hseen =>
                  rcases List.mem_cons.mp h with h1 | h2
                  · subst h1
                    refine ⟨?_, List.mem_cons_self _ _, ?_, hslug⟩
                    · simpa using hnkeep
                    · intro hmem
                      have hc : seen.contains a.link = true :=
                        List.elem_iff.mpr hmem
                      rw [Bool.not_eq_true] at hseen
                      rw [hseen] at hc
                      exact Bool.false_ne_true hc
                  · rcases ih h2 with ⟨h1', h2', h3', h4'⟩
                    refine ⟨h1', List.mem_cons_of_mem _ h2', ?_, h4'⟩
                    intro hmem
                    exact h3' (List.mem_cons_of_mem _ hmem)

theorem backfillLoop_links_nodup {pSlug : String} {keep : Call → Bool} :
    ∀ (l : List Call) (n : Int) (seen : List String),
      ((backfillLoop pSlug keep n seen l).map (·.link)).Nodup := by
  intro l
  induction l with
  | nil => intro n seen; simp [backfillLoop]
  | cons c rest ih =>
      intro n seen
      simp only [backfillLoop]
      split
      · simp
      · split
        · exact ih n seen
        · split
          · exact ih n seen
          · split
            · exact ih n seen
            · simp only [List.map_cons, List.nodup_cons]
              refine ⟨?_, ih (n + 1) (c.link :: seen)⟩
              intro hmem
              rcases List.mem_map.mp hmem with ⟨b, hb, hlink⟩
              rcases mem_backfillLoop hb with ⟨_, _, hnotin, _⟩
              exact hnotin (by simp [hlink])

theorem mem_euAccept {fd sm : String → String} {ods kw : String} {today : Date}
    {needed : Int} {a : Call} :
    ∀ {l : List EuRaw} {acc : List Call} {seen : List String},
      a ∈ (euAccept fd sm ods kw today needed l acc seen).1 →
      a ∈ acc ∨ (isExpired today a = false ∧ a.site = "European Commission") := by
  intro l
  induction l with
  | nil => intro acc seen h; simpa [euAccept] using Or.inl h
  | cons r rest ih =>
      intro acc seen h
      simp only [euAccept] at h
      split at h
      · exact Or.inl h
      · split at h
        · exact ih h
        · split at h
          · exact ih h
          · next hnexp =>
              rw [Bool.not_eq_true] at hnexp
              split at h
              · exact ih h
              · split at h
                · exact ih h
                · rcases ih h with hmem | hres
                  · rcases List.mem_append.mp hmem with h1 | h2
                    · exact Or.inl h1
                    · right
                      simp only [List.mem_singleton] at h2
                      subst h2
                      exact ⟨by simpa [isExpired] using hnexp, rfl⟩
                  · exact Or.inr hres

theorem mem_euLoop {gp : Nat → List EuRaw} {fd sm : String → String}
    {ods kw : String} {today : Date} {needed : Int} {a : Call} :
    ∀ {fuel ce : Nat} {acc : List Call} {seen : List String},
      a ∈ (euLoop gp fd sm ods kw today needed fuel ce acc seen).1 →
      a ∈ acc ∨ (isExpired today a = false ∧ a.site = "European Commission") := by
  intro fuel
  induction fuel with
  | zero => intro ce acc seen h; simpa [euLoop] using Or.inl h
  | succ fuel ih =>
      intro ce acc seen h
      simp only [euLoop] at h
      split at h
      · split at h
        · exact ih h
        · rcases ih h with hmem | hres
          · rcases mem_euAccept hmem with h1 | h2
            · exact Or.inl h1
            · exact Or.inr h2
          · exact Or.inr hres
      · exact Or.inl h

/-! ## Lemmas about the cache store -/

theorem rt_site (c : Call) : (rt c).site = c.site := rfl

theorem rt_link (c : Call) : (rt c).link = c.link := rfl

theorem rt_deadline (c : Call) : (rt c).deadline_date = c.deadline_date := rfl

theorem loadRowsAux_ok (l : List Row) :
    ∀ acc, loadRowsAux acc (l.map Except.ok) = acc.reverse ++ l.map rowToCall := by
  induction l with
  | nil => intro acc; simp [loadRowsAux]
  | cons r rest ih =>
      intro acc
      simp only [List.map_cons, loadRowsAux, ih]
      simp

theorem loadCacheSt_save_same (st : Store) (s t o : String) (cs : List Call) :
    loadCacheSt (saveCacheSt st s t o cs) s t o = cs.map rt := by
  have hmap : (cs.map fun c => (Except.ok (callToRow c) : Except Unit Row))
      = (cs.map callToRow).map Except.ok := by
    simp [List.map_map]
  show loadCacheFile (if fname s t o = fname s t o then
      some (cs.map fun c => .ok (callToRow c)) else st (fname s t o)) = cs.map rt
  rw [if_pos rfl, hmap]
  show loadRowsAux [] ((cs.map callToRow).map Except.ok) = cs.map rt
  rw [loadRowsAux_ok]
  simp [List.map_map, rt]

theorem loadCacheSt_save_ne (st : Store) {s t o s' t' o' : String}
    (cs : List Call) (h : fname s' t' o' ≠ fname s t o) :
    loadCacheSt (saveCacheSt st s t o cs) s' t' o' = loadCacheSt st s' t' o' := by
  simp [loadCacheSt, saveCacheSt, h]

theorem fname_ne_of_slug_ne {s₁ s₂ : String} (t o : String) (h : s₁ ≠ s₂) :
    fname s₁ t o ≠ fname s₂ t o := by
  intro he
  apply h
  apply String.ext
  have hd : "cache_".data ++ (s₁.data ++ ("_" ++ t ++ "_" ++ o ++ ".csv").data)
      = "cache_".data ++ (s₂.data ++ ("_" ++ t ++ "_" ++ o ++ ".csv").data) := by
    have : (fname s₁ t o).data = (fname s₂ t o).data := by rw [he]
    simpa [fname, List.append_assoc] using this
  exact List.append_cancel_right (List.append_cancel_left hd)

theorem loadRowsAux_err : ∀ {rows : List (Except Unit Row)},
    Except.error () ∈ rows → ∀ acc, loadRowsAux acc rows = [] := by
  intro rows
  induction rows with
  | nil => intro h; simp at h
  | cons x rest ih =>
      intro h acc
      match x with
      | .error () => rfl
      | .ok r =>
          have : Except.error () ∈ rest := by
            rcases List.mem_cons.mp h with h1 | h2
            · exact absurd h1 (by simp)
            · exact h2
          exact ih this _

theorem mem_loadRowsAux {c : Call} : ∀ {rows : List (Except Unit Row)}
    {acc : List Call}, c ∈ loadRowsAux acc rows →
    c ∈ acc ∨ ∃ r, Except.ok r ∈ rows ∧ c = rowToCall r := by
  intro rows
  induction rows with
  | nil => intro acc h; simp only [loadRowsAux, List.mem_reverse] at h; exact Or.inl h
  | cons x rest ih =>
      intro acc h
      match x with
      | .error _ => simp [loadRowsAux] at h
      | .ok r =>
          rcases ih h with h1 | ⟨r', hr', he⟩
          · rcases List.mem_cons.mp h1 with h2 | h3
            · exact Or.inr ⟨r, List.mem_cons_self _ _, h2⟩
            · exact Or.inl h3
          · exact Or.inr ⟨r', List.mem_cons_of_mem _ hr', he⟩

theorem mem_loadCacheFile {c : Call} {f : Option (List (Except Unit Row))}
    (h : c ∈ loadCacheFile f) : ∃ r, c = rowToCall r := by
  match f with
  | none => simp [loadCacheFile] at h
  | some rows =>
      rcases mem_loadRowsAux h with h1 | ⟨r, _, he⟩
      · simp at h1
      · exact ⟨r, he⟩

theorem mem_loadNRowsAux {c : NCall} : ∀ {rows : List (Except Unit NRow)}
    {acc : List NCall}, c ∈ loadNRowsAux acc rows →
    c ∈ acc ∨ ∃ r, Except.ok r ∈ rows ∧ c = nRowToCall r := by
  intro rows
  induction rows with
  | nil => intro acc h; simp only [loadNRowsAux, List.mem_reverse] at h; exact Or.inl h
  | cons x rest ih =>
      intro acc h
      match x with
      | .error _ => simp [loadNRowsAux] at h
      | .ok r =>
          rcases ih h with h1 | ⟨r', hr', he⟩
          · rcases List.mem_cons.mp h1 with h2 | h3
            · exact Or.inr ⟨r, List.mem_cons_self _ _, h2⟩
            · exact Or.inl h3
          · exact Or.inr ⟨r', List.mem_cons_of_mem _ hr', he⟩

theorem rowToCall_ods_ne_nil (r : Row) : (rowToCall r).ods_list ≠ [] := by
  simp only [rowToCall]
  split
  · simp
  · next h => simpa [List.isEmpty_iff] using h

theorem rowToCall_ods_valid {r : Row}
    (h : ∀ x ∈ (splitOnChar ',' r.ods_classification).map trimStr,
      x = "" ∨ x ∈ validTags) :
    ∀ x ∈ (rowToCall r).ods_list, x ∈ validTags := by
  intro x hx
  simp only [rowToCall] at hx
  split at hx
  · simp only [List.mem_singleton] at hx
    subst hx
    simp [validTags]
  · have hx' := List.mem_of_mem_filter hx
    have hne : ¬(x = "") := by
      have := List.of_mem_filter hx
      simpa using this
    rcases h x hx' with h1 | h2
    · exact absurd h1 hne
    · exact h2

/-! ## Lemmas about the classifier -/

theorem mem_insertByNum {a x : String} :
    ∀ {l : List String}, a ∈ insertByNum x l → a = x ∨ a ∈ l := by
  intro l
  induction l with
  | nil => intro h; exact Or.inl (by simpa [insertByNum] using h)
  | cons y ys ih =>
      intro h
      simp only [insertByNum] at h
      split at h
      · rcases List.mem_cons.mp h with h1 | h2
        · exact Or.inl h1
        · exact Or.inr h2
      · rcases List.mem_cons.mp h with h1 | h2
        · exact Or.inr (by simp [h1])
        · rcases ih h2 with h3 | h4
          · exact Or.inl h3
          · exact Or.inr (List.mem_cons_of_mem _ h4)

theorem insertByNum_ne_nil (x : String) (l : List String) :
    insertByNum x l ≠ [] := by
  match l with
  | [] => simp [insertByNum]
  | y :: ys =>
      simp only [insertByNum]
      split <;> simp

theorem mem_sortByNumDedup {a : String} {l : List String}
    (h : a ∈ sortByNumDedup l) : a ∈ l := by
  have haux : ∀ (m : List String) (init : List String),
      a ∈ m.foldr insertByNum init → a ∈ m ∨ a ∈ init := by
    intro m
    induction m with
    | nil => intro init h'; exact Or.inr h'
    | cons y ys ih =>
        intro init h'
        simp only [List.foldr_cons] at h'
        rcases mem_insertByNum h' with h1 | h2
        · exact Or.inl (by simp [h1])
        · rcases ih init h2 with h3 | h4
          · exact Or.inl (List.mem_cons_of_mem _ h3)
          · exact Or.inr h4
  rcases haux l.dedup [] h with h1 | h2
  · exact List.mem_dedup.mp h1
  · simp at h2

theorem sortByNumDedup_ne_nil {l : List String} (h : l ≠ []) :
    sortByNumDedup l ≠ [] := by
  have hd : l.dedup ≠ [] := by
    simpa [List.dedup_eq_nil] using h
  match hm : l.dedup with
  | [] => exact absurd hm hd
  | y :: ys =>
      simp only [sortByNumDedup, hm, List.foldr_cons]
      exact insertByNum_ne_nil y _

theorem classifyOds_ne_nil (s : String) : classifyOds s ≠ [] := by
  simp only [classifyOds]
  split
  · simp
  · split
    · simp
    · next h =>
        exact sortByNumDedup_ne_nil (by simpa [List.isEmpty_iff] using h)

theorem classifyOds_valid {s x : String} (hx : x ∈ classifyOds s) :
    x ∈ validTags := by
  have hkeys : ∀ y ∈ odsKeywords.map (·.1), y ∈ validTags := by decide
  simp only [classifyOds] at hx
  split at hx
  · exact (by simp [validTags, List.mem_singleton.mp hx] : x ∈ validTags)
  · split at hx
    · exact (by simp [validTags, List.mem_singleton.mp hx] : x ∈ validTags)
    · have hx' := mem_sortByNumDedup hx
      rcases List.mem_map.mp hx' with ⟨p, hp, he⟩
      exact hkeys x (List.mem_map.mpr ⟨p, List.mem_of_mem_filter hp, he⟩)

/-! ## Claim theorems -/

/-- C10: for every `max_results <= 0`, the single-source entry points
`cached_scrape` and `scrape_eu_calls` return the empty list immediately,
leave the cache directory untouched, and invoke no scraper and fetch no
page. -/
theorem C10_nonpositive_limit (siteName : String) (scraper : Scraper)
    (getPage : Nat → List EuRaw) (fd sm : String → String)
    (theme ods kw : String) (maxResults : Int) (today : Date) (st : Store)
    (h : maxResults ≤ 0) :
    cachedScrape siteName scraper theme ods kw maxResults today st
        = .ok ⟨[], st, 0⟩
      ∧ scrapeEuCalls getPage fd sm theme ods kw maxResults today st
        = ⟨[], st, 0⟩ := by
  constructor
  · simp [cachedScrape, h]
  · simp [scrapeEuCalls, h]

/-- Witness for C10 at `max_results = -1` on the empty store. -/
theorem C10_nonpositive_limit_witness :
    ((-1 : Int) ≤ 0)
      ∧ (cachedScrape "Wellcome" (fun _ => .ok []) "" "" "" (-1) d0 emptyStore
          = .ok ⟨[], emptyStore, 0⟩
        ∧ scrapeEuCalls (fun _ => []) (fun _ => "") (fun s => s) "" "" "" (-1)
            d0 emptyStore = ⟨[], emptyStore, 0⟩) :=
  ⟨by decide,
   C10_nonpositive_limit "Wellcome" (fun _ => .ok []) (fun _ => [])
     (fun _ => "") (fun s => s) "" "" "" (-1) d0 emptyStore (by decide)⟩

/-- C5: every single-source result is capped: `cached_scrape` and
`scrape_eu_calls` return at most `max_results` records, and
`load_portal_calls` returns at most 10. -/
theorem C5_cap_invariant (siteName portalName : String) (scraper scraper' : Scraper)
    (getPage : Nat → List EuRaw) (fd sm : String → String)
    (theme ods kw : String) (maxResults : Int) (today : Date) (b : Bool)
    (st : Store) :
    (okCalls (cachedScrape siteName scraper theme ods kw maxResults today st)).length
        ≤ maxResults.toNat
      ∧ (scrapeEuCalls getPage fd sm theme ods kw maxResults today st).calls.length
        ≤ maxResults.toNat
      ∧ (okCalls (loadPortalCalls portalName scraper' theme ods kw today b st)).length
        ≤ 10 := by
  refine ⟨?_, ?_, ?_⟩
  · simp only [cachedScrape]
    split
    · simp [okCalls]
    · split
      · simp only [okCalls]
        exact List.length_take_le _ _
      · split
        · simp [okCalls]
        · simp only [okCalls]
          exact List.length_take_le _ _
  · simp only [scrapeEuCalls]
    split
    · simp
    · split
      · rw [length_sortCalls]
        exact List.length_take_le _ _
      · exact List.length_take_le _ _
  · simp only [loadPortalCalls]
    split
    · simp only [okCalls]
      exact List.length_take_le _ _
    · split
      · simp [okCalls]
      · simp only [okCalls]
        exact List.length_take_le _ _

/-- C2 counterexample: a scraper that raises is NOT caught.  On an empty
cache, both `load_portal_calls` and `load_all_calls` propagate the
scraper's exception to their caller instead of returning the records that
were valid from cache, refuting the claim's "the exception is caught ...
no exception propagates". -/
theorem C2_scraper_error_cex :
    loadPortalCalls "Wellcome" (fun _ => .error ()) "" "" "" d0 true emptyStore
        = .error ()
      ∧ loadAllCalls (fun _ _ => .error ()) "" "" "" d0 emptyStore
        = .error () := by
  exact ⟨rfl, rfl⟩

/-- C2 amended: an exception raised by a scraper invocation is not caught by
the engine.  Whenever the deficit condition makes `load_portal_calls`
invoke its scraper, an erroring scraper makes the whole call error; and
whenever the first portal of `load_all_calls` has a cache deficit,
all-erroring scrapers make the whole aggregation error. -/
theorem loadAllGo_cons_err (scr : AllScrapers) (theme ods kw : String)
    (today : Date) (p : String) (rest : List String) (st : Store)
    (agg : List Call) (n : Nat)
    (hd : ((collectValid (keepCall ods kw today) 10
      (loadCacheSt st (slugify p) (themeSlugOf theme) (odsSlugOf ods))).length : Int) < 10)
    (he : scr p (10 - ((collectValid (keepCall ods kw today) 10
      (loadCacheSt st (slugify p) (themeSlugOf theme) (odsSlugOf ods))).length : Int))
        = .error ()) :
    loadAllGo scr theme ods kw today (p :: rest) st agg n = .error () := by
  simp only [loadAllGo]
  rw [if_pos hd, he]

/-- C2 amended: an exception raised by a scraper invocation is not caught by
the engine.  Whenever the deficit condition makes `load_portal_calls`
invoke its scraper, an erroring scraper makes the whole call error; and
whenever the first portal of `load_all_calls` has a cache deficit,
all-erroring scrapers make the whole aggregation error. -/
theorem C2_scraper_error_amended (portalName theme ods kw : String)
    (today : Date) (st : Store) :
    ((((portalValidPart portalName theme ods kw today st).length : Int) < 10 →
        loadPortalCalls portalName (fun _ => .error ()) theme ods kw today true st
          = .error ())
      ∧ (((csValid "European Commission" theme ods kw 10 today st).length : Int) < 10 →
        loadAllCalls (fun _ _ => .error ()) theme ods kw today st
          = .error ())) := by
  constructor
  · intro hv
    simp only [portalValidPart] at hv
    have hlen := hv
    rw [List.length_append] at hlen
    push_cast at hlen
    have hfp1 : ¬ (((collectValid (keepCall ods kw today) 10
        (loadCacheSt st (slugify portalName) (themeSlugOf theme)
          (odsSlugOf ods))).length : Int) ≥ 10) := by
      omega
    have hC : (0 : Int) < 10 - ((collectValid (keepCall ods kw today) 10
        (loadCacheSt st (slugify portalName) (themeSlugOf theme) (odsSlugOf ods))
      ++ backfillLoop (slugify portalName) (keepCall ods kw today)
        (((collectValid (keepCall ods kw today) 10
          (loadCacheSt st (slugify portalName) (themeSlugOf theme)
            (odsSlugOf ods))).length : Int))
        ((collectValid (keepCall ods kw today) 10
          (loadCacheSt st (slugify portalName) (themeSlugOf theme)
            (odsSlugOf ods))).map (·.link))
        (loadCacheSt st "all" (themeSlugOf theme) (odsSlugOf ods))).length : Int) := by
      rw [List.length_append]
      push_cast
      omega
    simp only [loadPortalCalls]
    rw [if_neg hfp1]
    simp [hC]
    simp [hlen]
  · intro hv
    have hv' : ((collectValid (keepCall ods kw today) 10
        (loadCacheSt st (slugify "European Commission") (themeSlugOf theme)
          (odsSlugOf ods))).length : Int) < 10 := by
      simpa only [csValid] using hv
    have hgo : loadAllGo (fun _ _ => .error ()) theme ods kw today portalNames st [] 0
        = .error () := by
      show loadAllGo _ theme ods kw today ("European Commission" ::
        ["Wellcome", "Academy of Finland", "ANR", "IBRO", "IDRC"]) st [] 0
          = .error ()
      exact loadAllGo_cons_err _ theme ods kw today _ _ st [] 0 hv' rfl
    simp only [loadAllCalls, hgo]

/-- Witness for the amended C2 on the empty store. -/
theorem C2_scraper_error_amended_witness :
    ((((portalValidPart "Wellcome" "" "" "" d0 emptyStore).length : Int) < 10
        ∧ ((csValid "European Commission" "" "" "" 10 d0 emptyStore).length : Int) < 10)
      ∧ (loadPortalCalls "Wellcome" (fun _ => .error ()) "" "" "" d0 true emptyStore
          = .error ()
        ∧ loadAllCalls (fun _ _ => .error ()) "" "" "" d0 emptyStore
          = .error ())) :=
  ⟨⟨by decide, by decide⟩,
   ⟨(C2_scraper_error_amended "Wellcome" "" "" "" d0 emptyStore).1 (by decide),
    (C2_scraper_error_amended "Wellcome" "" "" "" d0 emptyStore).2 (by decide)⟩⟩

/-- C8 counterexample: a partition whose second row fails to parse loads as
`[]`, discarding the perfectly good first row — the whole-file `except`
clause of `load_cache` drops everything, it does not skip only the bad
row as the claim states (`loadCacheSkipRows` is the claim's behavior). -/
theorem C8_corrupt_row_cex :
    loadCacheFile (some [Except.ok goodRow, Except.error ()]) = []
      ∧ loadCacheSkipRows (some [Except.ok goodRow, Except.error ()])
        = [rowToCall goodRow]
      ∧ ([] : List Call) ≠ [rowToCall goodRow] := by
  refine ⟨rfl, rfl, by decide⟩

theorem loadCacheSkipRows_ok (l : List Row) :
    loadCacheSkipRows (some (l.map Except.ok)) = l.map rowToCall := by
  induction l with
  | nil => rfl
  | cons r rest ih =>
      simp only [List.map_cons, loadCacheSkipRows, List.filterMap_cons] at ih ⊢
      rw [ih]

/-- C8 amended: loading an absent partition yields the empty list and no
error ever reaches the caller, but a row-level parse error empties the
whole load: when every row parses the full partition is returned, and
when any row fails the entire partition loads as `[]` (good rows
included), for both the international and the national loader. -/
theorem C8_load_amended :
    loadCacheFile none = []
      ∧ loadNationalFile none = []
      ∧ (∀ rows : List (Except Unit Row), (∀ x ∈ rows, ∃ r, x = Except.ok r) →
          loadCacheFile (some rows) = loadCacheSkipRows (some rows))
      ∧ (∀ rows : List (Except Unit Row), Except.error () ∈ rows →
          loadCacheFile (some rows) = []) := by
  refine ⟨rfl, rfl, ?_, ?_⟩
  · intro rows hok
    obtain ⟨l, hl⟩ : ∃ l : List Row, rows = l.map Except.ok := by
      induction rows with
      | nil => exact ⟨[], rfl⟩
      | cons x rest ih =>
          obtain ⟨r, hr⟩ := hok x (List.mem_cons_self _ _)
          obtain ⟨l, hl⟩ := ih fun y hy => hok y (List.mem_cons_of_mem _ hy)
          exact ⟨r :: l, by simp [hr, hl]⟩
    subst hl
    show loadRowsAux [] (l.map Except.ok) = _
    rw [loadRowsAux_ok, loadCacheSkipRows_ok]
    simp
  · intro rows herr
    exact loadRowsAux_err herr []

/-- Witness for the amended C8 on concrete one- and two-row partitions. -/
theorem C8_load_amended_witness :
    ((∀ x ∈ ([Except.ok goodRow] : List (Except Unit Row)), ∃ r, x = Except.ok r)
        ∧ Except.error () ∈ ([Except.ok goodRow, Except.error ()] :
            List (Except Unit Row)))
      ∧ (loadCacheFile (some [Except.ok goodRow])
          = loadCacheSkipRows (some [Except.ok goodRow])
        ∧ loadCacheFile (some [Except.ok goodRow, Except.error ()]) = []) :=
  ⟨⟨by intro x hx; exact ⟨goodRow, by simpa using hx⟩, by simp⟩,
   ⟨C8_load_amended.2.2.1 [Except.ok goodRow]
      (by intro x hx; exact ⟨goodRow, by simpa using hx⟩),
    C8_load_amended.2.2.2 [Except.ok goodRow, Except.error ()] (by simp)⟩⟩

/-- C9 counterexample: `load_national_cache` splits the stored classification
on commas without stripping, so a record saved with the classifier output
`["2", "3"]` (from the summary "health food") loads back with `ods_list`
`["2", " 3"]`, and `" 3"` is neither an SDG tag "1".."17" nor "unknown" —
refuting the claim for records loaded from a (national) cache partition. -/
theorem C9_national_ods_cex :
    classifyOds "health food" = ["2", "3"]
      ∧ (loadNationalFile (some [Except.ok (nCallToRow natCall)])).map (·.ods_list)
        = [["2", " 3"]]
      ∧ " 3" ∉ validTags := by
  refine ⟨by decide, by decide, by decide⟩

/-- C9 amended: the classifier always returns a non-empty list of valid tags
(exactly `["unknown"]` when nothing matches), and the international
`load_cache` always yields a non-empty `ods_list` whose entries are valid
whenever each stored comma-component strips to a valid tag or to nothing;
the national loader, splitting without stripping, escapes this (see the
counterexample). -/
theorem C9_ods_amended :
    (∀ s, classifyOds s ≠ [] ∧ ∀ x ∈ classifyOds s, x ∈ validTags)
      ∧ (∀ s, (odsKeywords.filter fun p =>
            p.2.any fun kw => strOccurs kw (lowerStr s)).isEmpty = true →
          classifyOds s = ["unknown"])
      ∧ (∀ f, ∀ c ∈ loadCacheFile f, c.ods_list ≠ [])
      ∧ (∀ r : Row, (∀ x ∈ (splitOnChar ',' r.ods_classification).map trimStr,
            x = "" ∨ x ∈ validTags) →
          ∀ x ∈ (rowToCall r).ods_list, x ∈ validTags) := by
  refine ⟨?_, ?_, ?_, ?_⟩
  · intro s
    exact ⟨classifyOds_ne_nil s, fun x hx => classifyOds_valid hx⟩
  · intro s hempty
    simp only [classifyOds]
    split
    · rfl
    · rw [if_pos]
      simpa [List.isEmpty_iff] using hempty
  · intro f c hc
    obtain ⟨r, hr⟩ := mem_loadCacheFile hc
    subst hr
    exact rowToCall_ods_ne_nil r
  · intro r h
    exact rowToCall_ods_valid h

/-- Witness for the amended C9 on a concrete summary and a concrete row. -/
theorem C9_ods_amended_witness :
    ((classifyOds "health food" ≠ []
        ∧ ∀ x ∈ classifyOds "health food", x ∈ validTags)
      ∧ (∀ c ∈ loadCacheFile (some [Except.ok goodRow]), c.ods_list ≠ [])
      ∧ ((∀ x ∈ (splitOnChar ',' goodRow.ods_classification).map trimStr,
            x = "" ∨ x ∈ validTags)
        ∧ ∀ x ∈ (rowToCall goodRow).ods_list, x ∈ validTags)) :=
  ⟨(C9_ods_amended.1 "health food"),
   (C9_ods_amended.2.2.1 (some [Except.ok goodRow])),
   ⟨by decide, C9_ods_amended.2.2.2 goodRow (by decide)⟩⟩

/-! ## Expiry analysis of every engine result -/

theorem keep_not_expired {ods kw : String} {today : Date} {c : Call}
    (h : keepCall ods kw today c = true) : isExpired today c = false := by
  simp only [keepCall, Bool.and_eq_true, Bool.not_eq_true'] at h
  exact h.1.1

theorem not_expired_days {today : Date} {c : Call} (h : isExpired today c = false)
    {dt : Date} (hp : parseDateGeneric c.deadline_date = some dt) :
    7 ≤ (ratadie dt : Int) - ratadie today := by
  simp only [isExpired, expiredStr, hp] at h
  have := of_decide_eq_false h
  omega

theorem cachedScrape_mem_keep {siteName : String} {scraper : Scraper}
    {theme ods kw : String} {maxResults : Int} {today : Date} {st : Store}
    {c : Call}
    (hc : c ∈ okCalls (cachedScrape siteName scraper theme ods kw maxResults today st)) :
    keepCall ods kw today c = true := by
  simp only [cachedScrape] at hc
  split at hc
  · simp [okCalls] at hc
  · split at hc
    · simp only [okCalls] at hc
      exact (mem_collectValid (mem_sortCalls.mp (List.mem_of_mem_take hc))).1
    · split at hc
      · simp [okCalls] at hc
      · simp only [okCalls] at hc
        rcases List.mem_append.mp
            (mem_sortCalls.mp (List.mem_of_mem_take hc)) with h2 | h3
        · exact (mem_collectValid h2).1
        · exact (mem_acceptNew h3).1

theorem loadPortal_mem_keep {portalName : String} {scraper : Scraper}
    {theme ods kw : String} {today : Date} {b : Bool} {st : Store} {c : Call}
    (hc : c ∈ okCalls (loadPortalCalls portalName scraper theme ods kw today b st)) :
    keepCall ods kw today c = true := by
  simp only [loadPortalCalls] at hc
  split at hc
  · simp only [okCalls] at hc
    exact (mem_collectValid (mem_sortCalls.mp (List.mem_of_mem_take hc))).1
  · split at hc
    · simp [okCalls] at hc
    · next accepted heq =>
        simp only [okCalls] at hc
        rcases List.mem_append.mp
            (mem_sortCalls.mp (List.mem_of_mem_take hc)) with h2 | h3
        · rcases List.mem_append.mp h2 with h4 | h5
          · exact (mem_collectValid h4).1
          · exact (mem_backfillLoop h5).1
        · split at heq
          · split at heq
            · exact absurd heq (by simp)
            · rcases heq with ⟨⟩
              exact (mem_acceptNew h3).1
          · rcases heq with ⟨⟩
            simp at h3

theorem loadAllGo_mem_keep {scr : AllScrapers} {theme ods kw : String}
    {today : Date} :
    ∀ {ps : List String} {st : Store} {agg : List Call} {n : Nat}
      {res : List Call × Store × Nat},
      loadAllGo scr theme ods kw today ps st agg n = .ok res →
      ∀ c ∈ res.1, c ∈ agg ∨ keepCall ods kw today c = true := by
  intro ps
  induction ps with
  | nil =>
      intro st agg n res h c hc
      simp only [loadAllGo] at h
      cases h
      exact Or.inl hc
  | cons p rest ih =>
      intro st agg n res h c hc
      simp only [loadAllGo] at h
      split at h
      · simp at h
      · next fpF dn heq =>
          rcases ih h c hc with h1 | h2
          · rcases List.mem_append.mp h1 with h3 | h4
            · exact Or.inl h3
            · right
              have h5 := mem_sortCalls.mp (List.mem_of_mem_take h4)
              split at heq
              · split at heq
                · exact absurd heq (by simp)
                · rcases heq with ⟨⟩
                  rcases List.mem_append.mp h5 with h6 | h7
                  · exact (mem_collectValid h6).1
                  · exact (mem_acceptNew h7).1
              · rcases heq with ⟨⟩
                exact (mem_collectValid h5).1
          · exact Or.inr h2

theorem scrapeEu_mem_not_expired {gp : Nat → List EuRaw} {fd sm : String → String}
    {theme ods kw : String} {maxResults : Int} {today : Date} {st : Store}
    {c : Call}
    (hc : c ∈ (scrapeEuCalls gp fd sm theme ods kw maxResults today st).calls) :
    isExpired today c = false := by
  simp only [scrapeEuCalls] at hc
  split at hc
  · simp at hc
  · split at hc
    · exact keep_not_expired
        (mem_collectValid (List.mem_of_mem_take (mem_sortCalls.mp hc))).1
    · rcases List.mem_append.mp
          (mem_sortCalls.mp (List.mem_of_mem_take hc)) with h2 | h3
      · exact keep_not_expired (mem_collectValid h2).1
      · rcases mem_euLoop h3 with h4 | h5
        · simp at h4
        · exact h5.1

/-- C4: every record in any list the aggregation engine returns is either
non-expiring (unparseable or empty deadline, treated as not expired) or
has a deadline at least 7 days past `today`: for `cached_scrape`,
`scrape_eu_calls`, `load_portal_calls` and `load_all_calls`. -/
theorem C4_expiry_invariant (siteName portalName : String)
    (scraper scraper' : Scraper) (scr : AllScrapers) (getPage : Nat → List EuRaw)
    (fd sm : String → String) (theme ods kw : String) (maxResults : Int)
    (today : Date) (b : Bool) (st : Store) :
    (∀ c ∈ okCalls (cachedScrape siteName scraper theme ods kw maxResults today st),
      ∀ dt, parseDateGeneric c.deadline_date = some dt →
        7 ≤ (ratadie dt : Int) - ratadie today)
      ∧ (∀ c ∈ (scrapeEuCalls getPage fd sm theme ods kw maxResults today st).calls,
          ∀ dt, parseDateGeneric c.deadline_date = some dt →
            7 ≤ (ratadie dt : Int) - ratadie today)
      ∧ (∀ c ∈ okCalls (loadPortalCalls portalName scraper' theme ods kw today b st),
          ∀ dt, parseDateGeneric c.deadline_date = some dt →
            7 ≤ (ratadie dt : Int) - ratadie today)
      ∧ (∀ c ∈ okCalls (loadAllCalls scr theme ods kw today st),
          ∀ dt, parseDateGeneric c.deadline_date = some dt →
            7 ≤ (ratadie dt : Int) - ratadie today)
      ∧ (∀ c : Call, parseDateGeneric c.deadline_date = none →
          isExpired today c = false) := by
  refine ⟨?_, ?_, ?_, ?_, ?_⟩
  · intro c hc dt hdt
    exact not_expired_days (keep_not_expired (cachedScrape_mem_keep hc)) hdt
  · intro c hc dt hdt
    exact not_expired_days (scrapeEu_mem_not_expired hc) hdt
  · intro c hc dt hdt
    exact not_expired_days (keep_not_expired (loadPortal_mem_keep hc)) hdt
  · intro c hc dt hdt
    simp only [loadAllCalls] at hc
    split at hc
    · simp [okCalls] at hc
    · next agg heq =>
        simp only [okCalls] at hc
        rcases loadAllGo_mem_keep heq c (mem_sortCalls.mp hc) with h1 | h2
        · simp at h1
        · exact not_expired_days (keep_not_expired h2) hdt
  · intro c hp
    simp [isExpired, expiredStr, hp]

/-- Witness for C4: with a cached Wellcome record whose deadline parses to
2030-01-01, the single-source engine returns it and its deadline is at
least 7 days beyond `today` = 2025-01-01. -/
theorem C4_expiry_invariant_witness :
    (wCall ∈ okCalls (cachedScrape "Wellcome" (fun _ => .ok []) "" "" "" 1 d0 wStore)
        ∧ parseDateGeneric wCall.deadline_date = some ⟨2030, 1, 1⟩)
      ∧ 7 ≤ (ratadie ⟨2030, 1, 1⟩ : Int) - ratadie d0 :=
  ⟨⟨by decide, by decide⟩,
   (C4_expiry_invariant "Wellcome" "Wellcome" (fun _ => .ok []) (fun _ => .ok [])
      (fun _ _ => .ok []) (fun _ => []) (fun _ => "") (fun s => s) "" "" "" 1 d0
      true wStore).1 wCall (by decide) ⟨2030, 1, 1⟩ (by decide)⟩

/-- C6: the cache-hit fast path.  When the filtered cache already holds at
least `max_results` valid records, `cached_scrape` returns the sorted
first `max_results` of them with the store untouched and zero scraper
invocations — for EVERY scraper, so a second identical invocation returns
the identical output and again does not scrape; and likewise
`scrape_eu_calls` returns without fetching any page or writing. -/
theorem C6_cache_hit_idempotent (siteName theme ods kw : String)
    (maxResults : Int) (today : Date) (st : Store) :
    (((csValid siteName theme ods kw maxResults today st).length : Int) ≥ maxResults →
      (∀ scraper, cachedScrape siteName scraper theme ods kw maxResults today st
          = .ok ⟨(sortCalls (csValid siteName theme ods kw maxResults today st)).take
              maxResults.toNat, st, 0⟩)
      ∧ (∀ s₁ s₂ : Scraper,
          cachedScrape siteName s₂ theme ods kw maxResults today
              (okStore st (cachedScrape siteName s₁ theme ods kw maxResults today st))
            = cachedScrape siteName s₁ theme ods kw maxResults today st))
      ∧ (((euValid theme ods kw maxResults today st).length : Int) ≥ maxResults →
        ∀ (gp : Nat → List EuRaw) (fd sm : String → String),
          scrapeEuCalls gp fd sm theme ods kw maxResults today st
            = ⟨sortCalls ((euValid theme ods kw maxResults today st).take
                maxResults.toNat), st, 0⟩) := by
  constructor
  · intro hv
    have h1 : ∀ scraper, cachedScrape siteName scraper theme ods kw maxResults today st
        = .ok ⟨(sortCalls (csValid siteName theme ods kw maxResults today st)).take
            maxResults.toNat, st, 0⟩ := by
      intro scraper
      simp only [cachedScrape]
      by_cases h0 : maxResults ≤ 0
      · rw [if_pos h0]
        have ht : maxResults.toNat = 0 := Int.toNat_of_nonpos h0
        simp [ht]
      · rw [if_neg h0, if_pos (by simpa only [csValid] using hv)]
        simp only [csValid]
    refine ⟨h1, fun s₁ s₂ => ?_⟩
    rw [h1 s₁]
    simp only [okStore]
    rw [h1 s₂]
  · intro hv gp fd sm
    simp only [scrapeEuCalls]
    by_cases h0 : maxResults ≤ 0
    · rw [if_pos h0]
      have ht : maxResults.toNat = 0 := Int.toNat_of_nonpos h0
      simp [ht, sortCalls]
    · rw [if_neg h0, if_pos (by simpa only [euValid] using hv)]
      simp only [euValid]

/-- Witness for C6 on a one-record Wellcome partition with limit 1. -/
theorem C6_cache_hit_idempotent_witness :
    (((csValid "Wellcome" "" "" "" 1 d0 wStore).length : Int) ≥ 1)
      ∧ cachedScrape "Wellcome" (fun _ => .error ()) "" "" "" 1 d0 wStore
        = .ok ⟨(sortCalls (csValid "Wellcome" "" "" "" 1 d0 wStore)).take
            (1 : Int).toNat, wStore, 0⟩ :=
  ⟨by decide,
   ((C6_cache_hit_idempotent "Wellcome" "" "" "" 1 d0 wStore).1 (by decide)).1
     (fun _ => .error ())⟩

/-! ## Link-dedup analysis -/

theorem nodup_links_take_sort {l : List Call} (n : Nat)
    (h : (l.map (·.link)).Nodup) :
    (((sortCalls l).take n).map (·.link)).Nodup := by
  have hsorted : ((sortCalls l).map (·.link)).Nodup :=
    (((sortCalls_perm l).map (·.link)).nodup_iff).mpr h
  exact hsorted.sublist ((List.take_sublist n (sortCalls l)).map _)

theorem nodup_links_append {l₁ l₂ : List Call}
    (h1 : (l₁.map (·.link)).Nodup) (h2 : (l₂.map (·.link)).Nodup)
    (hd : ∀ c ∈ l₂, c.link ∉ l₁.map (·.link)) :
    ((l₁ ++ l₂).map (·.link)).Nodup := by
  rw [List.map_append]
  refine h1.append h2 ?_
  intro x hx1 hx2
  rcases List.mem_map.mp hx2 with ⟨c, hc, hlink⟩
  exact hd c hc (hlink ▸ hx1)

/-- C3 counterexample.  First: during "all" aggregation on an empty cache,
the EU portal and Wellcome each contribute a candidate with the same link
`http://mirror`, and BOTH survive in the merged returned list — per-portal
seen-link sets are reset for each portal and the concatenation is never
deduplicated.  Second: `cached_scrape` applies no dedup inside its own
cache-filter loop, so a partition already holding two rows with one link
is returned with the duplicate intact. -/
theorem C3_dup_links_cex :
    ¬ ((okCalls (loadAllCalls mirrorScrapers "" "" "" d0 emptyStore)).map
        (·.link)).Nodup
      ∧ ¬ ((okCalls (cachedScrape "Wellcome" (fun _ => .ok []) "" "" "" 5 d0
        dupStore)).map (·.link)).Nodup := by
  exact ⟨by decide, by decide⟩

/-- C3 amended: within a single-source result the dedup invariant holds
whenever the portal's own partition holds no duplicate links: both
`cached_scrape` results and `load_portal_calls` results (whose backfill
and scraped candidates are checked against the seen-link set) contain
pairwise-distinct links; in "all" mode only each portal's contribution is
internally deduplicated, and cross-portal duplicates survive (see the
counterexample). -/
theorem C3_dedup_amended (siteName portalName theme ods kw : String)
    (scraper scraper' : Scraper) (maxResults : Int) (today : Date) (b : Bool)
    (st : Store) :
    ((((loadCacheSt st (slugify siteName) (themeSlugOf theme)
          (odsSlugOf ods)).map (·.link)).Nodup →
        ((okCalls (cachedScrape siteName scraper theme ods kw maxResults today
          st)).map (·.link)).Nodup)
      ∧ (((loadCacheSt st (slugify portalName) (themeSlugOf theme)
          (odsSlugOf ods)).map (·.link)).Nodup →
        ((okCalls (loadPortalCalls portalName scraper' theme ods kw today b
          st)).map (·.link)).Nodup)) := by
  constructor
  · intro hn
    have hvalid : ((collectValid (keepCall ods kw today) maxResults
        (loadCacheSt st (slugify siteName) (themeSlugOf theme)
          (odsSlugOf ods))).map (·.link)).Nodup :=
      hn.sublist ((collectValidAux_sublist _ _ _ _).map _)
    simp only [cachedScrape]
    split
    · simp [okCalls]
    · split
      · simp only [okCalls]
        exact nodup_links_take_sort _ hvalid
      · split
        · simp [okCalls]
        · simp only [okCalls]
          refine nodup_links_take_sort _ (nodup_links_append hvalid
            (acceptNew_links_nodup _ _ _) ?_)
          intro c hc
          exact (mem_acceptNew hc).2.2.1
  · intro hn
    have hfp1 : ((collectValid (keepCall ods kw today) 10
        (loadCacheSt st (slugify portalName) (themeSlugOf theme)
          (odsSlugOf ods))).map (·.link)).Nodup :=
      hn.sublist ((collectValidAux_sublist _ _ _ _).map _)
    simp only [loadPortalCalls]
    split
    · simp only [okCalls]
      exact nodup_links_take_sort _ hfp1
    · have hfp2 : ((collectValid (keepCall ods kw today) 10
          (loadCacheSt st (slugify portalName) (themeSlugOf theme) (odsSlugOf ods))
        ++ backfillLoop (slugify portalName) (keepCall ods kw today)
          (((collectValid (keepCall ods kw today) 10
            (loadCacheSt st (slugify portalName) (themeSlugOf theme)
              (odsSlugOf ods))).length : Int))
          ((collectValid (keepCall ods kw today) 10
            (loadCacheSt st (slugify portalName) (themeSlugOf theme)
              (odsSlugOf ods))).map (·.link))
          (loadCacheSt st "all" (themeSlugOf theme) (odsSlugOf ods))).map
            (·.link)).Nodup := by
        refine nodup_links_append hfp1 (backfillLoop_links_nodup _ _ _) ?_
        intro c hc
        exact (mem_backfillLoop hc).2.2.1
      split
      · simp [okCalls]
      · next accepted heq =>
          simp only [okCalls]
          refine nodup_links_take_sort _ (nodup_links_append hfp2 ?_ ?_)
          · split at heq
            · split at heq
              · exact absurd heq (by simp)
              · rcases heq with ⟨⟩
                exact acceptNew_links_nodup _ _ _
            · rcases heq with ⟨⟩
              simp
          · intro c hc
            split at heq
            · split at heq
              · exact absurd heq (by simp)
              · rcases heq with ⟨⟩
                exact (mem_acceptNew hc).2.2.1
            · rcases heq with ⟨⟩
              simp at hc

/-- Witness for the amended C3 on a one-record Wellcome partition. -/
theorem C3_dedup_amended_witness :
    (((loadCacheSt wStore (slugify "Wellcome") (themeSlugOf "")
        (odsSlugOf "")).map (·.link)).Nodup)
      ∧ ((okCalls (cachedScrape "Wellcome" (fun _ => .ok []) "" "" "" 5 d0
          wStore)).map (·.link)).Nodup
      ∧ ((okCalls (loadPortalCalls "Wellcome" (fun _ => .ok []) "" "" "" d0 true
          wStore)).map (·.link)).Nodup :=
  ⟨by decide,
   (C3_dedup_amended "Wellcome" "Wellcome" "" "" "" (fun _ => .ok [])
      (fun _ => .ok []) 5 d0 true wStore).1 (by decide),
   (C3_dedup_amended "Wellcome" "Wellcome" "" "" "" (fun _ => .ok [])
      (fun _ => .ok []) 5 d0 true wStore).2 (by decide)⟩

/-! ## Characterizing the store after `load_all_calls` -/

theorem saveCacheSt_get_ne {st : Store} {s t o : String} {cs : List Call}
    {k : String} (h : k ≠ fname s t o) : saveCacheSt st s t o cs k = st k := by
  simp [saveCacheSt, h]

theorem saveCacheSt_get_same (st : Store) (s t o : String) (cs : List Call) :
    saveCacheSt st s t o cs (fname s t o)
      = some (cs.map fun c => .ok (callToRow c)) := by
  simp [saveCacheSt]

theorem loadCacheFile_ok_calls (cs : List Call) :
    loadCacheFile (some (cs.map fun c => .ok (callToRow c))) = cs.map rt := by
  have hmap : (cs.map fun c => (Except.ok (callToRow c) : Except Unit Row))
      = (cs.map callToRow).map Except.ok := by
    simp [List.map_map]
  rw [hmap]
  show loadRowsAux [] ((cs.map callToRow).map Except.ok) = cs.map rt
  rw [loadRowsAux_ok]
  simp [List.map_map, rt]

theorem foldSaves_get_ne (f : String → List Call) (tS oS : String) :
    ∀ (ps : List String) (st : Store) (k : String),
      (∀ p ∈ ps, k ≠ fname (slugify p) tS oS) → foldSaves f tS oS ps st k = st k := by
  intro ps
  induction ps with
  | nil => intro st k _; rfl
  | cons p rest ih =>
      intro st k h
      simp only [foldSaves]
      rw [ih _ _ fun q hq => h q (List.mem_cons_of_mem _ hq)]
      exact saveCacheSt_get_ne (h p (List.mem_cons_self _ _))

theorem foldSaves_get_mem (f : String → List Call) (tS oS : String) :
    ∀ (ps : List String) (st : Store) (p : String), p ∈ ps →
      List.Pairwise (fun a b => slugify a ≠ slugify b) ps →
      foldSaves f tS oS ps st (fname (slugify p) tS oS)
        = some ((f p).map fun c => .ok (callToRow c)) := by
  intro ps
  induction ps with
  | nil => intro st p h; simp at h
  | cons q rest ih =>
      intro st p hp hpw
      by_cases hpr : p ∈ rest
      · exact ih _ p hpr (List.pairwise_cons.mp hpw).2
      · have hpq : p = q := by
          rcases List.mem_cons.mp hp with h | h
          · exact h
          · exact absurd h hpr
        subst hpq
        simp only [foldSaves]
        rw [foldSaves_get_ne f tS oS rest _ _ fun r hr =>
          fname_ne_of_slug_ne tS oS ((List.pairwise_cons.mp hpw).1 r hr)]
        exact saveCacheSt_get_same _ _ _ _ _

theorem foldSaves_congr (tS oS : String) {f g : String → List Call} :
    ∀ (ps : List String) (st : Store), (∀ p ∈ ps, f p = g p) →
      foldSaves f tS oS ps st = foldSaves g tS oS ps st := by
  intro ps
  induction ps with
  | nil => intro st _; rfl
  | cons p rest ih =>
      intro st h
      simp only [foldSaves]
      rw [h p (List.mem_cons_self _ _)]
      exact ih _ fun q hq => h q (List.mem_cons_of_mem _ hq)

theorem contribAll_congr {scr : AllScrapers} {theme ods kw : String}
    {today : Date} {st st' : Store} {q : String}
    (h : loadCacheSt st' (slugify q) (themeSlugOf theme) (odsSlugOf ods)
       = loadCacheSt st (slugify q) (themeSlugOf theme) (odsSlugOf ods)) :
    contribAll scr theme ods kw today st' q
      = contribAll scr theme ods kw today st q := by
  simp only [contribAll, h]

theorem loadAllGo_spec (scr : AllScrapers) (theme ods kw : String) (today : Date) :
    ∀ (ps : List String) (st : Store) (agg : List Call) (n : Nat),
      (∀ p n', ∃ l, scr p n' = .ok l) →
      List.Pairwise (fun a b => slugify a ≠ slugify b) ps →
      ∃ m, loadAllGo scr theme ods kw today ps st agg n =
        .ok (agg ++ (ps.map (contribAll scr theme ods kw today st)).flatten,
             foldSaves (contribAll scr theme ods kw today st) (themeSlugOf theme)
               (odsSlugOf ods) ps st, m) := by
  intro ps
  induction ps with
  | nil =>
      intro st agg n _ _
      exact ⟨n, by simp [loadAllGo, foldSaves]⟩
  | cons p rest ih =>
      intro st agg n hok hpw
      have hpairs : ∀ q ∈ rest, slugify p ≠ slugify q := (List.pairwise_cons.mp hpw).1
      have hpwrest := (List.pairwise_cons.mp hpw).2
      have hstep : ∃ dn, loadAllGo scr theme ods kw today (p :: rest) st agg n
          = loadAllGo scr theme ods kw today rest
            (saveCacheSt st (slugify p) (themeSlugOf theme) (odsSlugOf ods)
              (contribAll scr theme ods kw today st p))
            (agg ++ contribAll scr theme ods kw today st p) (n + dn) := by
        by_cases hd : ((collectValid (keepCall ods kw today) 10
            (loadCacheSt st (slugify p) (themeSlugOf theme)
              (odsSlugOf ods))).length : Int) < 10
        · obtain ⟨l, hl⟩ := hok p (10 - ((collectValid (keepCall ods kw today) 10
            (loadCacheSt st (slugify p) (themeSlugOf theme)
              (odsSlugOf ods))).length : Int))
          refine ⟨1, ?_⟩
          simp only [loadAllGo, contribAll]
          simp [hd, hl]
        · refine ⟨0, ?_⟩
          simp only [loadAllGo, contribAll]
          simp [hd]
      obtain ⟨dn, hstep⟩ := hstep
      rw [hstep]
      obtain ⟨m, hm⟩ := ih
        (saveCacheSt st (slugify p) (themeSlugOf theme) (odsSlugOf ods)
          (contribAll scr theme ods kw today st p))
        (agg ++ contribAll scr theme ods kw today st p) (n + dn) hok hpwrest
      refine ⟨m, ?_⟩
      rw [hm]
      have hrest : ∀ q ∈ rest, contribAll scr theme ods kw today
          (saveCacheSt st (slugify p) (themeSlugOf theme) (odsSlugOf ods)
            (contribAll scr theme ods kw today st p)) q
          = contribAll scr theme ods kw today st q := fun q hq =>
        contribAll_congr (loadCacheSt_save_ne st _
          (fname_ne_of_slug_ne _ _ (Ne.symm (hpairs q hq))))
      rw [List.map_congr_left hrest, foldSaves_congr _ _ rest _ hrest]
      simp only [List.map_cons, List.flatten_cons, foldSaves, List.append_assoc]

theorem loadCacheSt_foldSaves_mem (f : String → List Call) (tS oS : String)
    (ps : List String) (st : Store) (p : String) (hp : p ∈ ps)
    (hpw : List.Pairwise (fun a b => slugify a ≠ slugify b) ps) :
    loadCacheSt (foldSaves f tS oS ps st) (slugify p) tS oS = (f p).map rt := by
  show loadCacheFile (foldSaves f tS oS ps st (fname (slugify p) tS oS)) = _
  rw [foldSaves_get_mem f tS oS ps st p hp hpw]
  exact loadCacheFile_ok_calls _

/-! ## Site analysis for the sync invariant -/

theorem filter_site_map_rt (l : List Call) (s : String) :
    (l.map rt).filter (fun c => c.site == s)
      = (l.filter (fun c => c.site == s)).map rt := by
  induction l with
  | nil => rfl
  | cons c cs ih =>
      simp only [List.map_cons, List.filter_cons]
      rw [show (rt c).site = c.site from rfl]
      split <;> simp [ih]

theorem contribAll_sites {scr : AllScrapers} {theme ods kw : String}
    {today : Date} {st : Store} {p : String}
    (h1 : ∀ c ∈ loadCacheSt st (slugify p) (themeSlugOf theme) (odsSlugOf ods),
      c.site = p)
    (h3 : ∀ n' l, scr p n' = .ok l → ∀ c ∈ l, c.site = p) :
    ∀ c ∈ contribAll scr theme ods kw today st p, c.site = p := by
  intro c hc
  simp only [contribAll] at hc
  have hc' := mem_sortCalls.mp (List.mem_of_mem_take hc)
  split at hc'
  · split at hc'
    · exact h1 c (mem_collectValid hc').2
    · next nc heq =>
        rcases List.mem_append.mp hc' with h4 | h5
        · exact h1 c (mem_collectValid h4).2
        · exact h3 _ nc heq c (mem_acceptNew h5).2.1
  · exact h1 c (mem_collectValid hc').2

theorem filter_flatten_contrib {f : String → List Call} {S : String} :
    ∀ (ps : List String), S ∈ ps → List.Pairwise (fun a b => a ≠ b) ps →
      (∀ p ∈ ps, ∀ c ∈ f p, c.site = p) →
      ((ps.map f).flatten).filter (fun c => c.site == S) = f S := by
  intro ps
  induction ps with
  | nil => intro h; simp at h
  | cons q rest ih =>
      intro hS hpw hsites
      simp only [List.map_cons, List.flatten_cons, List.filter_append]
      by_cases hqS : q = S
      · subst hqS
        have h1 : (f q).filter (fun c => c.site == q) = f q :=
          List.filter_eq_self.mpr fun c hc => by
            rw [beq_iff_eq]
            exact hsites q (List.mem_cons_self _ _) c hc
        have h2 : ((rest.map f).flatten).filter (fun c => c.site == q) = [] := by
          rw [List.filter_eq_nil_iff]
          intro c hc
          rcases List.mem_flatten.mp hc with ⟨l, hl, hcl⟩
          rcases List.mem_map.mp hl with ⟨r, hr, he⟩
          subst he
          have hcr : c.site = r := hsites r (List.mem_cons_of_mem _ hr) c hcl
          have hqr : q ≠ r := (List.pairwise_cons.mp hpw).1 r hr
          simp only [beq_iff_eq, hcr]
          exact fun hh => hqr hh.symm
        rw [h1, h2, List.append_nil]
      · have hS' : S ∈ rest := by
          rcases List.mem_cons.mp hS with h | h
          · exact absurd h.symm hqS
          · exact h
        have h1 : (f q).filter (fun c => c.site == S) = [] := by
          rw [List.filter_eq_nil_iff]
          intro c hc
          have hcq : c.site = q := hsites q (List.mem_cons_self _ _) c hc
          simp only [beq_iff_eq, hcq]
          exact fun hh => hqS hh
        rw [h1, List.nil_append]
        exact ih hS' (List.pairwise_cons.mp hpw).2
          fun r hr => hsites r (List.mem_cons_of_mem _ hr)

/-- C7: in "all" mode the per-portal top-up (`contribAll`, the inlined
single-source algorithm) runs for every configured portal with the same
per-source cap 10, each portal's capped sorted result is persisted to its
own partition, the concatenation is persisted under the "all" signature,
and the full sorted concatenation is returned with no global cap — the
result's length is the sum of the per-portal lengths, at most 10 times
the 6 portals. -/
theorem C7_all_mode_shape (scr : AllScrapers) (theme ods kw : String)
    (today : Date) (st : Store) (hok : ∀ p n', ∃ l, scr p n' = .ok l) :
    okCalls (loadAllCalls scr theme ods kw today st)
        = sortCalls ((portalNames.map (contribAll scr theme ods kw today st)).flatten)
      ∧ loadCacheSt (okStore st (loadAllCalls scr theme ods kw today st)) "all"
          (themeSlugOf theme) (odsSlugOf ods)
        = ((portalNames.map (contribAll scr theme ods kw today st)).flatten).map rt
      ∧ (∀ p ∈ portalNames,
          loadCacheSt (okStore st (loadAllCalls scr theme ods kw today st))
            (slugify p) (themeSlugOf theme) (odsSlugOf ods)
          = (contribAll scr theme ods kw today st p).map rt)
      ∧ (∀ p, (contribAll scr theme ods kw today st p).length ≤ 10)
      ∧ (okCalls (loadAllCalls scr theme ods kw today st)).length
          = ((portalNames.map (contribAll scr theme ods kw today st)).flatten).length
      ∧ (okCalls (loadAllCalls scr theme ods kw today st)).length ≤ 60 := by
  obtain ⟨m, hm⟩ :=
    loadAllGo_spec scr theme ods kw today portalNames st [] 0 hok (by decide)
  have hLA : loadAllCalls scr theme ods kw today st
      = .ok ⟨sortCalls ((portalNames.map (contribAll scr theme ods kw today st)).flatten),
             saveCacheSt (foldSaves (contribAll scr theme ods kw today st)
               (themeSlugOf theme) (odsSlugOf ods) portalNames st) "all"
               (themeSlugOf theme) (odsSlugOf ods)
               ((portalNames.map (contribAll scr theme ods kw today st)).flatten),
             m⟩ := by
    simp only [loadAllCalls, hm, List.nil_append]
  have hslugs : ∀ p ∈ portalNames, slugify p ≠ "all" := by decide
  refine ⟨by rw [hLA]; rfl, ?_, ?_, ?_, ?_, ?_⟩
  · rw [hLA]
    simp only [okStore]
    exact loadCacheSt_save_same _ _ _ _ _
  · intro p hp
    rw [hLA]
    simp only [okStore]
    rw [loadCacheSt_save_ne _ _ (fname_ne_of_slug_ne _ _ (hslugs p hp))]
    exact loadCacheSt_foldSaves_mem _ _ _ _ _ p hp (by decide)
  · intro p
    simp only [contribAll]
    exact List.length_take_le _ _
  · rw [hLA]
    simp only [okCalls]
    exact length_sortCalls _
  · rw [hLA]
    simp only [okCalls]
    rw [length_sortCalls, List.length_flatten]
    have hb : ∀ x ∈ ((portalNames.map (contribAll scr theme ods kw today st)).map
        List.length), x ≤ 10 := by
      intro x hx
      rcases List.mem_map.mp hx with ⟨l, hl, rfl⟩
      rcases List.mem_map.mp hl with ⟨p, hp, rfl⟩
      simp only [contribAll]
      exact List.length_take_le _ _
    have hs := List.sum_le_card_nsmul _ 10 hb
    simpa [portalNames, smul_eq_mul] using hs

/-- Witness for C7 with scrapers producing six records per active portal:
the all-mode result has length 12, exceeding the per-source cap of 10,
confirming the absence of a global cap. -/
theorem C7_all_mode_shape_witness :
    (∀ p n', ∃ l, bigScrapers p n' = .ok l)
      ∧ (okCalls (loadAllCalls bigScrapers "" "" "" d0 emptyStore)).length = 12
      ∧ 10 < (okCalls (loadAllCalls bigScrapers "" "" "" d0 emptyStore)).length
      ∧ (okCalls (loadAllCalls bigScrapers "" "" "" d0 emptyStore)).length ≤ 60 :=
  ⟨fun p n' => ⟨_, rfl⟩, by decide, by decide,
   (C7_all_mode_shape bigScrapers "" "" "" d0 emptyStore
      fun p n' => ⟨_, rfl⟩).2.2.2.2.2⟩

/-- C1: the sync invariant.  After a top-up write for a single portal
(`load_portal_calls` off the fast path, with a scraper that returns
normally), and after an "all"-mode run (`load_all_calls`), the persisted
"all" partition restricted to records whose `site` equals the portal name
is exactly the portal's own persisted partition — provided the pre-state
partitions and the scrapers carry accurate `site` fields (records tagged
with the portal they belong to), which the system's own writes maintain. -/
theorem C1_all_partition_sync (portalName theme ods kw : String) (today : Date)
    (scraper : Scraper) (scr : AllScrapers) (st : Store) :
    ((∀ n', ∃ l, scraper n' = .ok l) →
      slugify portalName ≠ "all" →
      ((((collectValid (keepCall ods kw today) 10
          (loadCacheSt st (slugify portalName) (themeSlugOf theme)
            (odsSlugOf ods))).length : Int) < 10)) →
      (∀ c ∈ loadCacheSt st (slugify portalName) (themeSlugOf theme) (odsSlugOf ods),
        c.site = portalName) →
      (∀ c ∈ loadCacheSt st "all" (themeSlugOf theme) (odsSlugOf ods),
        slugify c.site = slugify portalName → c.site = portalName) →
      (∀ n' l, scraper n' = .ok l → ∀ c ∈ l, c.site = portalName) →
      ((loadCacheSt (okStore st (loadPortalCalls portalName scraper theme ods kw
            today true st)) "all" (themeSlugOf theme) (odsSlugOf ods)).filter
          fun c => c.site == portalName)
        = loadCacheSt (okStore st (loadPortalCalls portalName scraper theme ods kw
            today true st)) (slugify portalName) (themeSlugOf theme) (odsSlugOf ods))
      ∧ ((∀ p n', ∃ l, scr p n' = .ok l) →
        (∀ p ∈ portalNames, ∀ c ∈ loadCacheSt st (slugify p) (themeSlugOf theme)
          (odsSlugOf ods), c.site = p) →
        (∀ p n' l, scr p n' = .ok l → ∀ c ∈ l, c.site = p) →
        ∀ S ∈ portalNames,
        ((loadCacheSt (okStore st (loadAllCalls scr theme ods kw today st)) "all"
            (themeSlugOf theme) (odsSlugOf ods)).filter fun c => c.site == S)
          = loadCacheSt (okStore st (loadAllCalls scr theme ods kw today st))
              (slugify S) (themeSlugOf theme) (odsSlugOf ods)) := by
  constructor
  · intro hok hnall hv h1 h2 h3
    have hfn1 : fname (slugify portalName) (themeSlugOf theme) (odsSlugOf ods)
        ≠ fname "all" (themeSlugOf theme) (odsSlugOf ods) :=
      fname_ne_of_slug_ne _ _ hnall
    have hfn2 : fname "all" (themeSlugOf theme) (odsSlugOf ods)
        ≠ fname (slugify portalName) (themeSlugOf theme) (odsSlugOf ods) :=
      fname_ne_of_slug_ne _ _ (Ne.symm hnall)
    simp only [loadPortalCalls]
    rw [if_neg (by omega)]
    split
    · next e heq =>
        exfalso
        split at heq
        · obtain ⟨l, hl⟩ := hok (10 - (((collectValid (keepCall ods kw today) 10
              (loadCacheSt st (slugify portalName) (themeSlugOf theme)
                (odsSlugOf ods))
            ++ backfillLoop (slugify portalName) (keepCall ods kw today)
              (((collectValid (keepCall ods kw today) 10
                (loadCacheSt st (slugify portalName) (themeSlugOf theme)
                  (odsSlugOf ods))).length : Int))
              ((collectValid (keepCall ods kw today) 10
                (loadCacheSt st (slugify portalName) (themeSlugOf theme)
                  (odsSlugOf ods))).map (·.link))
              (loadCacheSt st "all" (themeSlugOf theme) (odsSlugOf ods)))).length : Int))
          rw [hl] at heq
          simp at heq
        · simp at heq
    · next accepted heq =>
        have hacc : ∀ c ∈ accepted, c.site = portalName := by
          intro c hc
          split at heq
          · obtain ⟨l, hl⟩ := hok (10 - (((collectValid (keepCall ods kw today) 10
              (loadCacheSt st (slugify portalName) (themeSlugOf theme)
                (odsSlugOf ods))
            ++ backfillLoop (slugify portalName) (keepCall ods kw today)
              (((collectValid (keepCall ods kw today) 10
                (loadCacheSt st (slugify portalName) (themeSlugOf theme)
                  (odsSlugOf ods))).length : Int))
              ((collectValid (keepCall ods kw today) 10
                (loadCacheSt st (slugify portalName) (themeSlugOf theme)
                  (odsSlugOf ods))).map (·.link))
              (loadCacheSt st "all" (themeSlugOf theme) (odsSlugOf ods)))).length : Int))
            rw [hl] at heq
            injection heq with heq'
            subst heq'
            exact h3 _ l hl c (mem_acceptNew hc).2.1
          · injection heq with heq'
            subst heq'
            simp at hc
        simp only [okStore]
        rw [loadCacheSt_save_ne _ _ hfn2]
        rw [loadCacheSt_save_same]
        rw [loadCacheSt_save_ne _ _ hfn1, loadCacheSt_save_same]
        rw [filter_site_map_rt, List.filter_append]
        have hSP : ∀ c ∈ sortCalls
            (collectValid (keepCall ods kw today) 10
              (loadCacheSt st (slugify portalName) (themeSlugOf theme)
                (odsSlugOf ods))
            ++ backfillLoop (slugify portalName) (keepCall ods kw today)
              (((collectValid (keepCall ods kw today) 10
                (loadCacheSt st (slugify portalName) (themeSlugOf theme)
                  (odsSlugOf ods))).length : Int))
              ((collectValid (keepCall ods kw today) 10
                (loadCacheSt st (slugify portalName) (themeSlugOf theme)
                  (odsSlugOf ods))).map (·.link))
              (loadCacheSt st "all" (themeSlugOf theme) (odsSlugOf ods))
            ++ accepted), c.site = portalName := by
          intro c hc
          rcases List.mem_append.mp (mem_sortCalls.mp hc) with h4 | h5
          · rcases List.mem_append.mp h4 with h6 | h7
            · exact h1 c (mem_collectValid h6).2
            · have hb := mem_backfillLoop h7
              exact h2 c hb.2.1 hb.2.2.2
          · exact hacc c h5
        rw [List.filter_eq_nil_iff.mpr ?hrem, List.nil_append,
            List.filter_eq_self.mpr ?hsp]
        case hrem =>
          intro c hc
          have hmem := List.of_mem_filter hc
          simp only [bne_iff_ne, ne_eq] at hmem
          simp only [beq_iff_eq]
          intro hcp
          exact hmem (by rw [hcp])
        case hsp =>
          intro c hc
          simp only [beq_iff_eq]
          exact hSP c hc
  · intro hok hsites hscr S hS
    obtain ⟨m, hm⟩ :=
      loadAllGo_spec scr theme ods kw today portalNames st [] 0 hok (by decide)
    have hLA : loadAllCalls scr theme ods kw today st
        = .ok ⟨sortCalls ((portalNames.map
              (contribAll scr theme ods kw today st)).flatten),
            saveCacheSt (foldSaves (contribAll scr theme ods kw today st)
              (themeSlugOf theme) (odsSlugOf ods) portalNames st) "all"
              (themeSlugOf theme) (odsSlugOf ods)
              ((portalNames.map (contribAll scr theme ods kw today st)).flatten),
            m⟩ := by
      simp only [loadAllCalls, hm, List.nil_append]
    rw [hLA]
    simp only [okStore]
    have hSlug : slugify S ≠ "all" :=
      (by decide : ∀ p ∈ portalNames, slugify p ≠ "all") S hS
    rw [loadCacheSt_save_ne _ _ (fname_ne_of_slug_ne _ _ hSlug),
        loadCacheSt_save_same,
        loadCacheSt_foldSaves_mem _ _ _ _ _ S hS (by decide)]
    rw [filter_site_map_rt]
    congr 1
    apply filter_flatten_contrib portalNames hS (by decide)
    intro p hp c hc
    exact contribAll_sites (hsites p hp) (hscr p) c hc

/-- Witness for C1: a Wellcome top-up on the empty store, and an "all"-mode
run with the six-record scrapers, both satisfy the sync invariant. -/
theorem C1_all_partition_sync_witness :
    ((∀ n', ∃ l, wScraper n' = .ok l)
      ∧ slugify "Wellcome" ≠ "all"
      ∧ (((collectValid (keepCall "" "" d0) 10
          (loadCacheSt emptyStore (slugify "Wellcome") (themeSlugOf "")
            (odsSlugOf ""))).length : Int) < 10))
      ∧ (((loadCacheSt (okStore emptyStore (loadPortalCalls "Wellcome" wScraper
            "" "" "" d0 true emptyStore)) "all" (themeSlugOf "")
            (odsSlugOf "")).filter fun c => c.site == "Wellcome")
          = loadCacheSt (okStore emptyStore (loadPortalCalls "Wellcome" wScraper
              "" "" "" d0 true emptyStore)) (slugify "Wellcome") (themeSlugOf "")
              (odsSlugOf "")
        ∧ ((loadCacheSt (okStore emptyStore (loadAllCalls bigScrapers "" "" "" d0
            emptyStore)) "all" (themeSlugOf "") (odsSlugOf "")).filter
            fun c => c.site == "Wellcome")
          = loadCacheSt (okStore emptyStore (loadAllCalls bigScrapers "" "" "" d0
              emptyStore)) (slugify "Wellcome") (themeSlugOf "")
              (odsSlugOf "")) := by
  have hscr : ∀ p n' l, bigScrapers p n' = .ok l → ∀ c ∈ l, c.site = p := by
    intro p n' l h c hc
    cases h
    by_cases h1 : p = "European Commission"
    · subst h1
      simp only [if_pos rfl] at hc
      exact (by decide : ∀ c ∈ bigList "European Commission"
        ["e1", "e2", "e3", "e4", "e5", "e6"], c.site = "European Commission") c hc
    · rw [if_neg h1] at hc
      by_cases h2 : p = "Wellcome"
      · subst h2
        simp only [if_pos rfl] at hc
        exact (by decide : ∀ c ∈ bigList "Wellcome"
          ["w1", "w2", "w3", "w4", "w5", "w6"], c.site = "Wellcome") c hc
      · rw [if_neg h2] at hc
        simp at hc
  have h3 : ∀ n' l, wScraper n' = .ok l → ∀ c ∈ l, c.site = "Wellcome" := by
    intro n' l h c hc
    cases h
    rcases List.mem_singleton.mp hc with rfl
    rfl
  refine ⟨⟨fun n' => ⟨_, rfl⟩, by decide, by decide⟩, ?_, ?_⟩
  · exact (C1_all_partition_sync "Wellcome" "" "" "" d0 wScraper bigScrapers
      emptyStore).1 (fun n' => ⟨_, rfl⟩) (by decide) (by decide) (by decide)
      (by decide) h3
  · exact (C1_all_partition_sync "Wellcome" "" "" "" d0 wScraper bigScrapers
      emptyStore).2 (fun p n' => ⟨_, rfl⟩) (by decide) hscr "Wellcome" (by decide)

end ICalls
